import Mathlib

/-!
Shallow embedding of the repository `angiemc98/Algoritmos`.

Two programs are embedded:

* `detectarActividadSospechosa` — the suspicious-activity detector over API
  access logs (source file `src/unnamed/part_001`).  The JavaScript `Map`s
  used for per-key aggregation are modelled as association lists in insertion
  order (a JS `Map` iterates its keys in insertion order, and updates keep the
  key's position); JS numbers are modelled as exact integers / rationals.
  The one place where exact rational arithmetic and JS floating point differ
  structurally is division by zero: JS yields `Infinity` (and `n/0 > limit` is
  true for every finite limit when `n > 0`), so the guard `rateExceeds`
  carries that case explicitly.

* `LRUCache` — the least-recently-used cache (source file `src/LRF.js`).
  The doubly linked list with sentinels is modelled as a list of
  key/value pairs from least recently used (front, `head.next`) to most
  recently used (back, `tail.prev`); the `Map` of node references is the
  positional lookup on that list, so `get`/`put` become pure functions.
-/

namespace Algoritmos

/-- One API access-log record (an element of the `logs` argument). -/
structure LogRecord where
  ip : String
  endpoint : String
  timestamp : Int
  status : Int
  user_agent : String
  response_time : ℚ
deriving DecidableEq

/-- The detection policy (the `config` argument). -/
structure Config where
  max_requests_per_minute : ℚ
  max_failed_logins : Int
  suspicious_endpoints : List String
  time_window : Int
deriving DecidableEq

/-- Association-list lookup, the model of `Map.get` / `Map.has`. -/
def lookupA {β : Type} : List (String × β) → String → Option β
  | [], _ => none
  | (k', v) :: rest, k => if k' = k then some v else lookupA rest k

/-- The model of the source's read-modify-write on a JS `Map` entry:
`if (!m.has(k)) m.set(k, d); f(m.get(k))` — an existing key keeps its
position, a new key is appended at the end (JS `Map` insertion order). -/
def updateA {β : Type} : List (String × β) → String → β → (β → β) → List (String × β)
  | [], k, d, f => [(k, f d)]
  | (k', v) :: rest, k, d, f =>
    if k' = k then (k', f v) :: rest else (k', v) :: updateA rest k d f

/-- Value stored in `requestsPorIP`: `{ timestamps: [...], count: N }`. -/
structure ReqData where
  timestamps : List Int
  count : Nat
deriving DecidableEq

/-- Value stored in `fallosLoginPorIP`: `{ count: N, timestamps: [...] }`. -/
structure FailData where
  count : Nat
  timestamps : List Int
deriving DecidableEq

/-- Value stored in `accesosEndpointSensible`: `{ count: N, ips: [...] }`. -/
structure EndpointData where
  count : Nat
  ips : List String
deriving DecidableEq

/-- The five aggregation maps built in PASO 2/3 of the source. -/
structure AggState where
  requestsPorIP : List (String × ReqData)
  fallosLoginPorIP : List (String × FailData)
  accesosEndpointSensible : List (String × EndpointData)
  userAgentsPorIP : List (String × List (String × Nat))
  tiemposRespuestaPorIP : List (String × List ℚ)
deriving DecidableEq

/-- The five empty maps created in PASO 2. -/
def emptyAgg : AggState :=
  { requestsPorIP := [], fallosLoginPorIP := [], accesosEndpointSensible := [],
    userAgentsPorIP := [], tiemposRespuestaPorIP := [] }

/-- Is the record a failed login on a sensitive endpoint?
Source: `config.suspicious_endpoints.includes(endpoint) && (status === 401 || status === 403)`. -/
def esFalloLogin (config : Config) (l : LogRecord) : Bool :=
  config.suspicious_endpoints.contains l.endpoint && (l.status == 401 || l.status == 403)

/-- The body of the `logs.forEach` loop (PASO 3, ANÁLISIS 1–5). -/
def procesarLog (config : Config) (st : AggState) (l : LogRecord) : AggState :=
  { requestsPorIP :=
      updateA st.requestsPorIP l.ip ⟨[], 0⟩
        (fun r => ⟨r.timestamps ++ [l.timestamp], r.count + 1⟩),
    fallosLoginPorIP :=
      if esFalloLogin config l then
        updateA st.fallosLoginPorIP l.ip ⟨0, []⟩
          (fun r => ⟨r.count + 1, r.timestamps ++ [l.timestamp]⟩)
      else st.fallosLoginPorIP,
    accesosEndpointSensible :=
      if config.suspicious_endpoints.contains l.endpoint then
        updateA st.accesosEndpointSensible l.endpoint ⟨0, []⟩
          (fun r => ⟨r.count + 1, r.ips ++ [l.ip]⟩)
      else st.accesosEndpointSensible,
    userAgentsPorIP :=
      updateA st.userAgentsPorIP l.ip []
        (fun t => updateA t l.user_agent 0 (· + 1)),
    tiemposRespuestaPorIP :=
      updateA st.tiemposRespuestaPorIP l.ip [] (fun ts => ts ++ [l.response_time]) }

/-- PASO 3 in full: one left-to-right pass over the batch. -/
def agregarLogs (config : Config) (logs : List LogRecord) : AggState :=
  logs.foldl (procesarLog config) emptyAgg

/-- `timestamps.sort((a, b) => a - b)` — ascending sort of the timestamps. -/
def sortTs (l : List Int) : List Int :=
  List.insertionSort (· ≤ ·) l

/-- The comparison `requests_per_minute > config.max_requests_per_minute`.
`requests_per_minute` is `requests_in_window / (time_window / 60000)`;
when `time_window = 0` JS computes `n / 0 = Infinity` (resp. `0/0 = NaN`),
and `Infinity > limit` is true while `NaN > limit` is false, which the
first branch records explicitly; otherwise the rational arithmetic is exact. -/
def rateExceeds (requests_in_window : Nat) (tw : Int) (maxReq : ℚ) : Bool :=
  if tw = 0 then decide (0 < requests_in_window)
  else decide (maxReq < (requests_in_window : ℚ) / ((tw : ℚ) / 60000))

/-- `requests_in_window / window_minutes`, the rate stored in a finding
(the source formats it with `.toFixed(2)`; the exact value is kept here). -/
def requestsPerMinute (requests_in_window : Nat) (tw : Int) : ℚ :=
  (requests_in_window : ℚ) / ((tw : ℚ) / 60000)

/-- BÚSQUEDA 1 (lines 147–189): the outer loop over window starts `i`.
The inner loop `for j = i; ...; break` counts the longest prefix of the
suffix that stays inside the window (the timestamps are sorted, so the
`break` makes the count a `takeWhile`).  The function returns the
`requests_per_minute` of the first violating window start, or `none`. -/
def scanRate (config : Config) : List Int → Option ℚ
  | [] => none
  | t :: rest =>
    let window_end := t + config.time_window
    let requests_in_window := ((t :: rest).takeWhile (fun u => decide (u ≤ window_end))).length
    if rateExceeds requests_in_window config.time_window config.max_requests_per_minute then
      some (requestsPerMinute requests_in_window config.time_window)
    else
      scanRate config rest

/-- An entry of `ips_sospechosas`. -/
structure IPSospechosa where
  ip : String
  razon : String
  requests_detectados : ℚ
  limite_permitido : ℚ
  ventana_minutos : ℚ
deriving DecidableEq

/-- An entry of `ataques_fuerza_bruta`.  `primera_tentativa` and
`ultima_tentativa` hold `timestamps[0]` and `timestamps[timestamps.length-1]`
(the source converts each of them with `new Date(·).toISOString()`, an
injective rendering that is dropped here). -/
structure AtaqueFuerzaBruta where
  ip : String
  tipo_ataque : String
  intentos_fallidos : Nat
  limite_permitido : Int
  timestamps_intentos : List Int
  primera_tentativa : Int
  ultima_tentativa : Int
deriving DecidableEq

/-- An entry of `endpoints_bajo_ataque`. -/
structure EndpointBajoAtaque where
  endpoint : String
  total_accesos : Nat
  ips_unicas : Nat
  descripcion : String
deriving DecidableEq

/-- An entry of `anomalias_detectadas` — the source pushes object literals of
two different shapes into the same array, modelled as a sum.  The JS field
`desviacion_estandar_ms` holds `Math.sqrt(varianza).toFixed(2)`; to stay in
exact arithmetic the constructor stores `varianza` (its square) instead. -/
inductive Anomalia where
  | multiplesUA (ip : String) (cantidad_user_agents : Nat)
      (user_agent_mas_comun : String) (total_requests_desde_ip : Nat) (detalle : String)
  | tiemposIrregulares (ip : String) (tiempo_promedio_ms : ℚ)
      (varianza_ms : ℚ) (detalle : String)
deriving DecidableEq

/-- The IP an anomaly was reported for. -/
def Anomalia.ipDe : Anomalia → String
  | .multiplesUA ip _ _ _ _ => ip
  | .tiemposIrregulares ip _ _ _ => ip

/-- Is the anomaly of kind `\x7b tipo_anomalia: 'Múltiples User-Agents' \x7d`? -/
def Anomalia.esMultiplesUA : Anomalia → Bool
  | .multiplesUA _ _ _ _ _ => true
  | .tiemposIrregulares _ _ _ _ => false

/-- The record returned in PASO 9. -/
structure Reporte where
  ips_sospechosas : List IPSospechosa
  ataques_fuerza_bruta : List AtaqueFuerzaBruta
  endpoints_bajo_ataque : List EndpointBajoAtaque
  anomalias_detectadas : List Anomalia
  total_eventos_sospechosos : Nat
deriving DecidableEq

/-- PASO 4 (lines 136–190): per IP, sort the timestamps, scan the windows,
and on the first violation push one finding (guarded by
`!ips_sospechosas.find(item => item.ip === ip)`) and bump the counter. -/
def pasoIPs (config : Config) (m : List (String × ReqData))
    (init : List IPSospechosa × Nat) : List IPSospechosa × Nat :=
  m.foldl (fun p e =>
    match scanRate config (sortTs e.2.timestamps) with
    | none => p
    | some r =>
      if p.1.any (fun item => item.ip == e.1) then p
      else
        (p.1 ++ [{ ip := e.1, razon := "Exceso de requests por minuto",
                   requests_detectados := r,
                   limite_permitido := config.max_requests_per_minute,
                   ventana_minutos := (config.time_window : ℚ) / 60000 }],
         p.2 + 1)) init

/-- Generic form of the remaining detector passes: a `forEach` over a map
that conditionally pushes one finding per entry and bumps the counter. -/
def pushPass {β F : Type} (g : String × β → Option F) (m : List (String × β))
    (init : List F × Nat) : List F × Nat :=
  m.foldl (fun p e =>
    match g e with
    | some fnd => (p.1 ++ [fnd], p.2 + 1)
    | none => p) init

/-- The conditional push of PASO 5 (lines 197–215): `count > max_failed_logins`. -/
def gFuerzaBruta (config : Config) (e : String × FailData) : Option AtaqueFuerzaBruta :=
  if config.max_failed_logins < (e.2.count : Int) then
    some { ip := e.1, tipo_ataque := "Fuerza Bruta en Login",
           intentos_fallidos := e.2.count,
           limite_permitido := config.max_failed_logins,
           timestamps_intentos := e.2.timestamps,
           primera_tentativa := e.2.timestamps.headD 0,
           ultima_tentativa := e.2.timestamps.getLastD 0 }
  else none

/-- PASO 5: detect brute-force attacks. -/
def pasoFuerzaBruta (config : Config) (m : List (String × FailData))
    (init : List AtaqueFuerzaBruta × Nat) : List AtaqueFuerzaBruta × Nat :=
  pushPass (gFuerzaBruta config) m init

/-- The conditional push of PASO 6 (lines 222–242): `new Set(ips).size > 10`. -/
def gEndpoint (e : String × EndpointData) : Option EndpointBajoAtaque :=
  let unique_ips := e.2.ips.toFinset.card
  if 10 < unique_ips then
    some { endpoint := e.1, total_accesos := e.2.count, ips_unicas := unique_ips,
           descripcion := "Acceso masivo desde múltiples IPs" }
  else none

/-- PASO 6: detect endpoints under mass access. -/
def pasoEndpoints (m : List (String × EndpointData))
    (init : List EndpointBajoAtaque × Nat) : List EndpointBajoAtaque × Nat :=
  pushPass gEndpoint m init

/-- `Math.max(...frecuencias)` over a list of counts (`-Infinity` on the
empty list in JS; the call site only reaches nonempty lists, for which the
`0` seed is absorbed since counts are naturals). -/
def listMax (l : List Nat) : Nat :=
  l.foldl max 0

/-- `frecuencias.indexOf(x)` (JS returns `-1` when absent; the call site
only looks up an element that occurs, so the absent case is unreachable
and mapped to the list's length here). -/
def indexOfJS : List Nat → Nat → Nat
  | [], _ => 0
  | a :: rest, x => if a = x then 0 else indexOfJS rest x + 1

/-- `user_agents[frecuencias.indexOf(Math.max(...frecuencias))]` —
the first user agent attaining the maximal count, in table order. -/
def userAgentMasComun (table : List (String × Nat)) : String :=
  let frecuencias := table.map Prod.snd
  (table.map Prod.fst).getD (indexOfJS frecuencias (listMax frecuencias)) ""

/-- The conditional push of PASO 7 (lines 249–277): more than 5 distinct
user agents for one IP. -/
def gUserAgents (e : String × List (String × Nat)) : Option Anomalia :=
  let user_agents := e.2.map Prod.fst
  let frecuencias := e.2.map Prod.snd
  if 5 < user_agents.length then
    some (.multiplesUA e.1 user_agents.length (userAgentMasComun e.2)
      (frecuencias.foldl (· + ·) 0)
      "Comportamiento sospechoso: demasiados User-Agents diferentes")
  else none

/-- PASO 7: detect multi-user-agent anomalies. -/
def pasoUserAgents (m : List (String × List (String × Nat)))
    (init : List Anomalia × Nat) : List Anomalia × Nat :=
  pushPass gUserAgents m init

/-- `tiempos.reduce((a, b) => a + b, 0) / tiempos.length`. -/
def promedioDe (tiempos : List ℚ) : ℚ :=
  tiempos.foldl (· + ·) 0 / (tiempos.length : ℚ)

/-- `tiempos.reduce((sum, t) => sum + Math.pow(t - promedio, 2), 0) / tiempos.length`. -/
def varianzaDe (tiempos : List ℚ) : ℚ :=
  tiempos.foldl (fun sum t => sum + (t - promedioDe tiempos) ^ 2) 0 / (tiempos.length : ℚ)

/-- The test `desv_estandar > promedio * 1.5` where
`desv_estandar = Math.sqrt(varianza)`.  In exact arithmetic (`varianza ≥ 0`)
the square-root comparison holds iff `promedio * 1.5` is negative or its
square is below `varianza`, which keeps the definition inside ℚ. -/
def desvCond (varianza promedio : ℚ) : Bool :=
  decide (promedio * 1.5 < 0 ∨ (promedio * 1.5) ^ 2 < varianza)

/-- The conditional push of PASO 8 (lines 284–306). -/
def gTiempos (e : String × List ℚ) : Option Anomalia :=
  let promedio := promedioDe e.2
  let varianza := varianzaDe e.2
  if desvCond varianza promedio then
    some (.tiemposIrregulares e.1 promedio varianza
      "Comportamiento inconsistente en tiempos de respuesta")
  else none

/-- PASO 8: detect irregular response times. -/
def pasoTiempos (m : List (String × List ℚ))
    (init : List Anomalia × Nat) : List Anomalia × Nat :=
  pushPass gTiempos m init

/-- `detectarActividadSospechosa(logs, config)` (lines 14–320): aggregate the
batch, run the four detector passes in source order — sharing the single
counter `total_eventos_sospechosos`, with PASO 7 and PASO 8 pushing into the
same `anomalias_detectadas` array — and return the report of PASO 9. -/
def detectarActividadSospechosa (logs : List LogRecord) (config : Config) : Reporte :=
  let st := agregarLogs config logs
  let r1 := pasoIPs config st.requestsPorIP ([], 0)
  let r2 := pasoFuerzaBruta config st.fallosLoginPorIP ([], r1.2)
  let r3 := pasoEndpoints st.accesosEndpointSensible ([], r2.2)
  let r4 := pasoUserAgents st.userAgentsPorIP ([], r3.2)
  let r5 := pasoTiempos st.tiemposRespuestaPorIP (r4.1, r4.2)
  { ips_sospechosas := r1.1,
    ataques_fuerza_bruta := r2.1,
    endpoints_bajo_ataque := r3.1,
    anomalias_detectadas := r5.1,
    total_eventos_sospechosos := r5.2 }

/-- Claim-side count for a window start `i`: the number of indices `j ≥ i`
with `timestamps[j] ≤ timestamps[i] + time_window`. -/
def countWindowClaim (ts : List Int) (i : Nat) (tw : Int) : Nat :=
  match ts.drop i with
  | [] => 0
  | t :: rest => ((t :: rest).filter (fun u => decide (u ≤ t + tw))).length

/-- Claim-side violation predicate for a window start `i` over the sorted
timestamps `ts`: the in-window count divided by the window length in
minutes strictly exceeds the configured per-minute limit. -/
def violacionEn (config : Config) (ts : List Int) (i : Nat) : Prop :=
  rateExceeds (countWindowClaim ts i config.time_window) config.time_window
    config.max_requests_per_minute = true

instance (config : Config) (ts : List Int) (i : Nat) :
    Decidable (violacionEn config ts i) := by
  unfold violacionEn; infer_instance

/-- The per-IP user-agent frequency table built from that IP's user-agent
sequence (keys in first-occurrence order, one count per agent). -/
def uaTable (l : List String) : List (String × Nat) :=
  l.foldl (fun t ua => updateA t ua 0 (· + 1)) []

/-- One aggregation step seen by a single map: update the entry of `key l`
when `cond l` holds.  Each of the five maps of `procesarLog` is an instance. -/
def updStep {β : Type} (key : LogRecord → String) (cond : LogRecord → Bool) (d : β)
    (f : LogRecord → β → β) (m : List (String × β)) (l : LogRecord) : List (String × β) :=
  if cond l then updateA m (key l) d (f l) else m

/-- The finding `pasoIPs` pushes for one map entry, when the window scan of
that entry's sorted timestamps reports a violation. -/
def gIPs (config : Config) (e : String × ReqData) : Option IPSospechosa :=
  (scanRate config (sortTs e.2.timestamps)).map (fun r =>
    { ip := e.1, razon := "Exceso de requests por minuto", requests_detectados := r,
      limite_permitido := config.max_requests_per_minute,
      ventana_minutos := (config.time_window : ℚ) / 60000 })

/-- Is the anomaly of kind `\x7b tipo_anomalia: 'Tiempos de respuesta irregulares' \x7d`? -/
def Anomalia.esTiemposIrregulares : Anomalia → Bool
  | .multiplesUA _ _ _ _ _ => false
  | .tiemposIrregulares _ _ _ _ => true

/-- Claim side: the ascending-sorted timestamps of one IP's requests in the batch. -/
def tsDe (logs : List LogRecord) (ip : String) : List Int :=
  sortTs ((logs.filter (fun l => l.ip == ip)).map (fun l => l.timestamp))

/-- Claim side: the timestamps (in batch order) of one IP's failed logins
on suspicious endpoints. -/
def fallosDe (logs : List LogRecord) (config : Config) (ip : String) : List Int :=
  (logs.filter (fun l => esFalloLogin config l && (l.ip == ip))).map (fun l => l.timestamp)

/-- Claim side: the rate-abuse findings reported for one IP. -/
def hallazgosRate (logs : List LogRecord) (config : Config) (ip : String) : List IPSospechosa :=
  (detectarActividadSospechosa logs config).ips_sospechosas.filter (fun f => f.ip == ip)

/-- Claim side: the brute-force findings reported for one IP. -/
def hallazgosFuerza (logs : List LogRecord) (config : Config) (ip : String) :
    List AtaqueFuerzaBruta :=
  (detectarActividadSospechosa logs config).ataques_fuerza_bruta.filter (fun f => f.ip == ip)

/-- Claim side: the mass-scan findings reported for one endpoint. -/
def hallazgosEndpoint (logs : List LogRecord) (config : Config) (ep : String) :
    List EndpointBajoAtaque :=
  (detectarActividadSospechosa logs config).endpoints_bajo_ataque.filter
    (fun f => f.endpoint == ep)

/-- Claim side: the multi-user-agent anomalies reported for one IP. -/
def anomaliasUA (logs : List LogRecord) (config : Config) (ip : String) : List Anomalia :=
  (detectarActividadSospechosa logs config).anomalias_detectadas.filter
    (fun a => a.esMultiplesUA && (a.ipDe == ip))

/-- Claim side: the irregular-response-time anomalies reported for one IP. -/
def anomaliasTiempos (logs : List LogRecord) (config : Config) (ip : String) : List Anomalia :=
  (detectarActividadSospechosa logs config).anomalias_detectadas.filter
    (fun a => a.esTiemposIrregulares && (a.ipDe == ip))

/-- Claim side: the arithmetic mean of a sample list, written with `List.sum`. -/
def promedioClaim (tiempos : List ℚ) : ℚ :=
  tiempos.sum / (tiempos.length : ℚ)

/-- Claim side: the population variance — summed squared deviations divided
by the full sample count. -/
def varianzaClaim (tiempos : List ℚ) : ℚ :=
  (tiempos.map (fun t => (t - promedioClaim tiempos) ^ 2)).sum / (tiempos.length : ℚ)

end Algoritmos

namespace Algoritmos

/-- A node of the cache's doubly linked list holds a key and a value;
the list with its two sentinels is modelled as the sequence of real nodes
from `head.next` (least recently used) to `tail.prev` (most recently used). -/
structure LRUCache where
  capacity : Int
  entries : List (String × Int)
deriving DecidableEq

/-- The constructor: `if (capacity <= 0) throw new Error('Capacity debe ser mayor a 0')`,
then an empty map and the two connected sentinels. -/
def LRUCache.mkCache (capacity : Int) : Except String LRUCache :=
  if capacity ≤ 0 then .error "Capacity debe ser mayor a 0"
  else .ok { capacity := capacity, entries := [] }

/-- `get(key)`: `-1` on a miss; on a hit, move the node to the end
(most recently used) and return its value. -/
def LRUCache.get (c : LRUCache) (key : String) : Int × LRUCache :=
  match c.entries.find? (fun p => p.1 == key) with
  | none => (-1, c)
  | some node =>
    (node.2, { c with entries := c.entries.eraseP (fun p => p.1 == key) ++ [(key, node.2)] })

/-- `put(key, value)`: update-and-move-to-end when the key exists; otherwise
evict the least recently used node (the one after `head`) when the cache is
full, then append the new node at the end. -/
def LRUCache.put (c : LRUCache) (key : String) (value : Int) : LRUCache :=
  match c.entries.find? (fun p => p.1 == key) with
  | some _ =>
    { c with entries := c.entries.eraseP (fun p => p.1 == key) ++ [(key, value)] }
  | none =>
    let entries1 :=
      if c.capacity ≤ (c.entries.length : Int) then c.entries.tail else c.entries
    { c with entries := entries1 ++ [(key, value)] }

/-- `keys()`: the keys from least recently used to most recently used. -/
def LRUCache.keys (c : LRUCache) : List String :=
  c.entries.map Prod.fst

/-- `size()`: the number of stored entries. -/
def LRUCache.size (c : LRUCache) : Nat :=
  c.entries.length

end Algoritmos

namespace Algoritmos

/-! ### Association-list lemmas -/

theorem lookupA_updateA_self {β : Type} (m : List (String × β)) (k : String) (d : β) (f : β → β) :
    lookupA (updateA m k d f) k = some (f ((lookupA m k).getD d)) := by
  induction m with
  | nil => simp [updateA, lookupA]
  | cons e rest ih =>
    obtain ⟨k', v⟩ := e
    by_cases h : k' = k
    · subst h
      simp [updateA, lookupA]
    · simp [updateA, lookupA, h, ih]

theorem lookupA_updateA_ne {β : Type} (m : List (String × β)) (k k' : String) (d : β)
    (f : β → β) (h : k' ≠ k) : lookupA (updateA m k d f) k' = lookupA m k' := by
  induction m with
  | nil => simp [updateA, lookupA, Ne.symm h]
  | cons e rest ih =>
    obtain ⟨k₀, v⟩ := e
    by_cases h₀ : k₀ = k
    · subst h₀
      simp [updateA, lookupA, Ne.symm h]
    · by_cases h₁ : k₀ = k'
      · subst h₁
        simp [updateA, lookupA, h₀]
      · simp [updateA, lookupA, h₀, h₁, ih]

theorem keys_updateA {β : Type} (m : List (String × β)) (k : String) (d : β) (f : β → β) :
    (updateA m k d f).map Prod.fst =
      if k ∈ m.map Prod.fst then m.map Prod.fst else m.map Prod.fst ++ [k] := by
  induction m with
  | nil => simp [updateA]
  | cons e rest ih =>
    obtain ⟨k₀, v⟩ := e
    by_cases h : k₀ = k
    · subst h
      simp [updateA]
    · simp only [updateA, if_neg h, List.map_cons, List.mem_cons, ih]
      by_cases hk : k ∈ rest.map Prod.fst
      · simp [hk, Ne.symm h]
      · simp [hk, Ne.symm h]

theorem nodup_keys_updateA {β : Type} (m : List (String × β)) (k : String) (d : β) (f : β → β)
    (h : (m.map Prod.fst).Nodup) : ((updateA m k d f).map Prod.fst).Nodup := by
  rw [keys_updateA]
  by_cases hk : k ∈ m.map Prod.fst
  · simpa [hk]
  · simpa [hk, List.nodup_append] using h

theorem lookupA_eq_none_iff {β : Type} (m : List (String × β)) (k : String) :
    lookupA m k = none ↔ k ∉ m.map Prod.fst := by
  induction m with
  | nil => simp [lookupA]
  | cons e rest ih =>
    obtain ⟨k₀, v⟩ := e
    by_cases h : k₀ = k
    · subst h
      simp [lookupA]
    · simp only [lookupA, if_neg h, List.map_cons, List.mem_cons, ih]
      constructor
      · intro hnot hor
        rcases hor with h1 | h2
        · exact h h1.symm
        · exact hnot h2
      · intro hnot hmem
        exact hnot (Or.inr hmem)

/-! ### Fold machinery for the aggregation pass -/

theorem lookupA_foldl_updStep {β : Type} (key : LogRecord → String) (cond : LogRecord → Bool)
    (d : β) (f : LogRecord → β → β) (logs : List LogRecord) (m : List (String × β)) (k : String) :
    lookupA (logs.foldl (updStep key cond d f) m) k =
      (logs.filter (fun l => cond l && (key l == k))).foldl
        (fun acc l => some (f l (acc.getD d))) (lookupA m k) := by
  induction logs generalizing m with
  | nil => simp
  | cons l rest ih =>
    by_cases hc : cond l
    · by_cases hk : key l = k
      · have hstep : lookupA (updStep key cond d f m l) k = some (f l ((lookupA m k).getD d)) := by
          simp only [updStep, if_pos hc, hk]
          exact lookupA_updateA_self m k d (f l)
        simp [List.foldl_cons, List.filter_cons, hc, hk, ih, hstep]
      · have hstep : lookupA (updStep key cond d f m l) k = lookupA m k := by
          simp only [updStep, if_pos hc]
          exact lookupA_updateA_ne m (key l) k d (f l) (Ne.symm hk)
        simp [List.foldl_cons, List.filter_cons, hc, hk, ih, hstep]
    · have hstep : updStep key cond d f m l = m := by simp [updStep, hc]
      simp [List.foldl_cons, List.filter_cons, hc, ih, hstep]

theorem nodup_keys_foldl_updStep {β : Type} (key : LogRecord → String) (cond : LogRecord → Bool)
    (d : β) (f : LogRecord → β → β) (logs : List LogRecord) (m : List (String × β))
    (h : (m.map Prod.fst).Nodup) :
    ((logs.foldl (updStep key cond d f) m).map Prod.fst).Nodup := by
  induction logs generalizing m with
  | nil => simpa
  | cons l rest ih =>
    refine ih _ ?_
    by_cases hc : cond l
    · simpa [updStep, hc] using nodup_keys_updateA m (key l) d (f l) h
    · simpa [updStep, hc]

end Algoritmos

namespace Algoritmos

/-! ### Projections of the aggregation onto the five maps -/

theorem proj_requests (config : Config) (logs : List LogRecord) : ∀ st : AggState,
    (logs.foldl (procesarLog config) st).requestsPorIP =
      logs.foldl (updStep (fun l => l.ip) (fun _ => true) ⟨[], 0⟩
        (fun l r => ⟨r.timestamps ++ [l.timestamp], r.count + 1⟩)) st.requestsPorIP := by
  induction logs with
  | nil => intro st; rfl
  | cons l rest ih =>
    intro st
    rw [List.foldl_cons, List.foldl_cons, ih]
    rfl

theorem proj_fallos (config : Config) (logs : List LogRecord) : ∀ st : AggState,
    (logs.foldl (procesarLog config) st).fallosLoginPorIP =
      logs.foldl (updStep (fun l => l.ip) (esFalloLogin config) ⟨0, []⟩
        (fun l r => ⟨r.count + 1, r.timestamps ++ [l.timestamp]⟩)) st.fallosLoginPorIP := by
  induction logs with
  | nil => intro st; rfl
  | cons l rest ih =>
    intro st
    rw [List.foldl_cons, List.foldl_cons, ih]
    rfl

theorem proj_endpoints (config : Config) (logs : List LogRecord) : ∀ st : AggState,
    (logs.foldl (procesarLog config) st).accesosEndpointSensible =
      logs.foldl (updStep (fun l => l.endpoint)
        (fun l => config.suspicious_endpoints.contains l.endpoint) ⟨0, []⟩
        (fun l r => ⟨r.count + 1, r.ips ++ [l.ip]⟩)) st.accesosEndpointSensible := by
  induction logs with
  | nil => intro st; rfl
  | cons l rest ih =>
    intro st
    rw [List.foldl_cons, List.foldl_cons, ih]
    rfl

theorem proj_ua (config : Config) (logs : List LogRecord) : ∀ st : AggState,
    (logs.foldl (procesarLog config) st).userAgentsPorIP =
      logs.foldl (updStep (fun l => l.ip) (fun _ => true) []
        (fun l t => updateA t l.user_agent 0 (· + 1))) st.userAgentsPorIP := by
  induction logs with
  | nil => intro st; rfl
  | cons l rest ih =>
    intro st
    rw [List.foldl_cons, List.foldl_cons, ih]
    rfl

theorem proj_tiempos (config : Config) (logs : List LogRecord) : ∀ st : AggState,
    (logs.foldl (procesarLog config) st).tiemposRespuestaPorIP =
      logs.foldl (updStep (fun l => l.ip) (fun _ => true) []
        (fun l ts => ts ++ [l.response_time])) st.tiemposRespuestaPorIP := by
  induction logs with
  | nil => intro st; rfl
  | cons l rest ih =>
    intro st
    rw [List.foldl_cons, List.foldl_cons, ih]
    rfl

/-! ### Lookup in an aggregated map, per key -/

theorem optFold_generic {β : Type} (f : LogRecord → β → β) (d : β) :
    ∀ (ls : List LogRecord) (b : β),
      ls.foldl (fun acc l => some (f l (acc.getD d))) (some b) =
        some (ls.foldl (fun b l => f l b) b) := by
  intro ls
  induction ls with
  | nil => intro b; rfl
  | cons x xs ih => intro b; simp [List.foldl_cons, ih]

theorem lookupA_agg_generic {β : Type} (key : LogRecord → String) (cond : LogRecord → Bool)
    (d : β) (f : LogRecord → β → β) (logs : List LogRecord) (k : String) :
    lookupA (logs.foldl (updStep key cond d f) []) k =
      match logs.filter (fun l => cond l && (key l == k)) with
      | [] => none
      | x :: xs => some (xs.foldl (fun b l => f l b) (f x d)) := by
  rw [lookupA_foldl_updStep]
  have hnone : lookupA ([] : List (String × β)) k = none := rfl
  rw [hnone]
  cases hf : logs.filter (fun l => cond l && (key l == k)) with
  | nil => rfl
  | cons x xs =>
    rw [List.foldl_cons]
    have h0 : some (f x (Option.getD none d)) = some (f x d) := rfl
    simp only [h0]
    exact optFold_generic f d xs (f x d)

theorem reqFoldPlain (ls : List LogRecord) : ∀ b : ReqData,
    ls.foldl (fun b l => (⟨b.timestamps ++ [l.timestamp], b.count + 1⟩ : ReqData)) b =
      ⟨b.timestamps ++ ls.map (fun l => l.timestamp), b.count + ls.length⟩ := by
  induction ls with
  | nil => intro b; simp
  | cons x xs ih =>
    intro b
    rw [List.foldl_cons, ih]
    simp
    omega

theorem failFoldPlain (ls : List LogRecord) : ∀ b : FailData,
    ls.foldl (fun b l => (⟨b.count + 1, b.timestamps ++ [l.timestamp]⟩ : FailData)) b =
      ⟨b.count + ls.length, b.timestamps ++ ls.map (fun l => l.timestamp)⟩ := by
  induction ls with
  | nil => intro b; simp
  | cons x xs ih =>
    intro b
    rw [List.foldl_cons, ih]
    simp
    omega

theorem epFoldPlain (ls : List LogRecord) : ∀ b : EndpointData,
    ls.foldl (fun b l => (⟨b.count + 1, b.ips ++ [l.ip]⟩ : EndpointData)) b =
      ⟨b.count + ls.length, b.ips ++ ls.map (fun l => l.ip)⟩ := by
  induction ls with
  | nil => intro b; simp
  | cons x xs ih =>
    intro b
    rw [List.foldl_cons, ih]
    simp
    omega

theorem tiemposFoldPlain (ls : List LogRecord) : ∀ b : List ℚ,
    ls.foldl (fun b l => b ++ [l.response_time]) b = b ++ ls.map (fun l => l.response_time) := by
  induction ls with
  | nil => intro b; simp
  | cons x xs ih =>
    intro b
    rw [List.foldl_cons, ih]
    simp

theorem lookupA_agg_req (config : Config) (logs : List LogRecord) (ip : String) :
    lookupA (agregarLogs config logs).requestsPorIP ip =
      match logs.filter (fun l => l.ip == ip) with
      | [] => none
      | x :: xs =>
        some ⟨(x :: xs).map (fun l => l.timestamp), (x :: xs).length⟩ := by
  rw [agregarLogs, proj_requests, show emptyAgg.requestsPorIP = [] from rfl, lookupA_agg_generic]
  have hpred : (fun l : LogRecord => (fun _ : LogRecord => true) l && (l.ip == ip)) =
      fun l : LogRecord => l.ip == ip := by
    funext l
    simp
  rw [hpred]
  cases hf : logs.filter (fun l => l.ip == ip) with
  | nil => rfl
  | cons x xs =>
    have : xs.foldl
        (fun (b : ReqData) l => (⟨b.timestamps ++ [l.timestamp], b.count + 1⟩ : ReqData))
        ⟨[] ++ [x.timestamp], 0 + 1⟩ =
        ⟨(x :: xs).map (fun l => l.timestamp), (x :: xs).length⟩ := by
      rw [reqFoldPlain]
      simp
      omega
    simpa using congrArg some this

theorem lookupA_agg_fallos (config : Config) (logs : List LogRecord) (ip : String) :
    lookupA (agregarLogs config logs).fallosLoginPorIP ip =
      match logs.filter (fun l => esFalloLogin config l && (l.ip == ip)) with
      | [] => none
      | x :: xs =>
        some ⟨(x :: xs).length, (x :: xs).map (fun l => l.timestamp)⟩ := by
  rw [agregarLogs, proj_fallos, show emptyAgg.fallosLoginPorIP = [] from rfl, lookupA_agg_generic]
  cases hf : logs.filter (fun l => esFalloLogin config l && (l.ip == ip)) with
  | nil => rfl
  | cons x xs =>
    have : xs.foldl
        (fun (b : FailData) l => (⟨b.count + 1, b.timestamps ++ [l.timestamp]⟩ : FailData))
        ⟨0 + 1, [] ++ [x.timestamp]⟩ =
        ⟨(x :: xs).length, (x :: xs).map (fun l => l.timestamp)⟩ := by
      rw [failFoldPlain]
      simp
      omega
    simpa using congrArg some this

theorem lookupA_agg_endpoint (config : Config) (logs : List LogRecord) (ep : String) :
    lookupA (agregarLogs config logs).accesosEndpointSensible ep =
      match logs.filter
          (fun l => config.suspicious_endpoints.contains l.endpoint && (l.endpoint == ep)) with
      | [] => none
      | x :: xs =>
        some ⟨(x :: xs).length, (x :: xs).map (fun l => l.ip)⟩ := by
  rw [agregarLogs, proj_endpoints, show emptyAgg.accesosEndpointSensible = [] from rfl,
    lookupA_agg_generic]
  cases hf : logs.filter
      (fun l => config.suspicious_endpoints.contains l.endpoint && (l.endpoint == ep)) with
  | nil => rfl
  | cons x xs =>
    have : xs.foldl
        (fun (b : EndpointData) l => (⟨b.count + 1, b.ips ++ [l.ip]⟩ : EndpointData))
        ⟨0 + 1, [] ++ [x.ip]⟩ =
        ⟨(x :: xs).length, (x :: xs).map (fun l => l.ip)⟩ := by
      rw [epFoldPlain]
      simp
      omega
    simpa using congrArg some this

theorem lookupA_agg_ua (config : Config) (logs : List LogRecord) (ip : String) :
    lookupA (agregarLogs config logs).userAgentsPorIP ip =
      match logs.filter (fun l => l.ip == ip) with
      | [] => none
      | x :: xs => some (uaTable ((x :: xs).map (fun l => l.user_agent))) := by
  rw [agregarLogs, proj_ua, show emptyAgg.userAgentsPorIP = [] from rfl, lookupA_agg_generic]
  have hpred : (fun l : LogRecord => (fun _ : LogRecord => true) l && (l.ip == ip)) =
      fun l : LogRecord => l.ip == ip := by
    funext l
    simp
  rw [hpred]
  cases hf : logs.filter (fun l => l.ip == ip) with
  | nil => rfl
  | cons x xs =>
    have : xs.foldl (fun t l => updateA t l.user_agent 0 (· + 1))
        (updateA [] x.user_agent 0 (· + 1)) =
        uaTable ((x :: xs).map (fun l => l.user_agent)) := by
      rw [uaTable, List.foldl_map, List.foldl_cons]
    simpa using congrArg some this

theorem lookupA_agg_tiempos (config : Config) (logs : List LogRecord) (ip : String) :
    lookupA (agregarLogs config logs).tiemposRespuestaPorIP ip =
      match logs.filter (fun l => l.ip == ip) with
      | [] => none
      | x :: xs => some ((x :: xs).map (fun l => l.response_time)) := by
  rw [agregarLogs, proj_tiempos, show emptyAgg.tiemposRespuestaPorIP = [] from rfl,
    lookupA_agg_generic]
  have hpred : (fun l : LogRecord => (fun _ : LogRecord => true) l && (l.ip == ip)) =
      fun l : LogRecord => l.ip == ip := by
    funext l
    simp
  rw [hpred]
  cases hf : logs.filter (fun l => l.ip == ip) with
  | nil => rfl
  | cons x xs =>
    have : xs.foldl (fun b l => b ++ [l.response_time]) ([] ++ [x.response_time]) =
        (x :: xs).map (fun l => l.response_time) := by
      rw [tiemposFoldPlain]
      simp
    simpa using congrArg some this

end Algoritmos

namespace Algoritmos

/-! ### Keys of the aggregated maps are distinct -/

theorem nodup_keys_agg_req (config : Config) (logs : List LogRecord) :
    ((agregarLogs config logs).requestsPorIP.map Prod.fst).Nodup := by
  rw [agregarLogs, proj_requests]
  exact nodup_keys_foldl_updStep _ _ _ _ _ _ (by simp [emptyAgg])

theorem nodup_keys_agg_fallos (config : Config) (logs : List LogRecord) :
    ((agregarLogs config logs).fallosLoginPorIP.map Prod.fst).Nodup := by
  rw [agregarLogs, proj_fallos]
  exact nodup_keys_foldl_updStep _ _ _ _ _ _ (by simp [emptyAgg])

theorem nodup_keys_agg_endpoint (config : Config) (logs : List LogRecord) :
    ((agregarLogs config logs).accesosEndpointSensible.map Prod.fst).Nodup := by
  rw [agregarLogs, proj_endpoints]
  exact nodup_keys_foldl_updStep _ _ _ _ _ _ (by simp [emptyAgg])

theorem nodup_keys_agg_ua (config : Config) (logs : List LogRecord) :
    ((agregarLogs config logs).userAgentsPorIP.map Prod.fst).Nodup := by
  rw [agregarLogs, proj_ua]
  exact nodup_keys_foldl_updStep _ _ _ _ _ _ (by simp [emptyAgg])

theorem nodup_keys_agg_tiempos (config : Config) (logs : List LogRecord) :
    ((agregarLogs config logs).tiemposRespuestaPorIP.map Prod.fst).Nodup := by
  rw [agregarLogs, proj_tiempos]
  exact nodup_keys_foldl_updStep _ _ _ _ _ _ (by simp [emptyAgg])

/-! ### The detector passes as `filterMap`s over their maps -/

theorem pushPass_eq {β F : Type} (g : String × β → Option F) :
    ∀ (m : List (String × β)) (acc : List F) (t : Nat),
      pushPass g m (acc, t) = (acc ++ m.filterMap g, t + (m.filterMap g).length) := by
  intro m
  induction m with
  | nil => intro acc t; simp [pushPass]
  | cons e rest ih =>
    intro acc t
    cases hg : g e with
    | none =>
      have hstep : pushPass g (e :: rest) (acc, t) = pushPass g rest (acc, t) := by
        simp [pushPass, List.foldl_cons, hg]
      rw [hstep, ih]
      simp [List.filterMap_cons, hg]
    | some fnd =>
      have : pushPass g (e :: rest) (acc, t) = pushPass g rest (acc ++ [fnd], t + 1) := by
        simp [pushPass, List.foldl_cons, hg]
      rw [this, ih]
      simp [List.filterMap_cons, hg]
      omega

theorem pasoIPs_eq (config : Config) :
    ∀ (m : List (String × ReqData)) (acc : List IPSospechosa) (t : Nat),
      (m.map Prod.fst).Nodup →
      (∀ f ∈ acc, ∀ e ∈ m, f.ip ≠ e.1) →
      pasoIPs config m (acc, t) =
        (acc ++ m.filterMap (gIPs config), t + (m.filterMap (gIPs config)).length) := by
  intro m
  induction m with
  | nil => intro acc t _ _; simp [pasoIPs]
  | cons e rest ih =>
    intro acc t hnd hdisj
    have hndr : (rest.map Prod.fst).Nodup := by
      simpa using hnd.of_cons
    cases hg : gIPs config e with
    | none =>
      have hscan : scanRate config (sortTs e.2.timestamps) = none := by
        rcases hsc : scanRate config (sortTs e.2.timestamps) with _ | r
        · rfl
        · exfalso
          rw [gIPs, hsc] at hg
          simp at hg
      have hstep : pasoIPs config (e :: rest) (acc, t) = pasoIPs config rest (acc, t) := by
        simp [pasoIPs, List.foldl_cons, hscan]
      rw [hstep, ih acc t hndr (fun f hf e' he' => hdisj f hf e' (List.mem_cons_of_mem e he'))]
      simp [List.filterMap_cons, hg]
    | some fnd =>
      obtain ⟨r, hsc, hfnd⟩ : ∃ r, scanRate config (sortTs e.2.timestamps) = some r ∧
          fnd = { ip := e.1, razon := "Exceso de requests por minuto", requests_detectados := r,
                  limite_permitido := config.max_requests_per_minute,
                  ventana_minutos := (config.time_window : ℚ) / 60000 } := by
        rcases hsc : scanRate config (sortTs e.2.timestamps) with _ | r
        · rw [gIPs, hsc] at hg
          simp at hg
        · rw [gIPs, hsc] at hg
          simp at hg
          exact ⟨r, rfl, hg.symm⟩
      have hany : acc.any (fun item => item.ip == e.1) = false := by
        rw [List.any_eq_false]
        intro f hf
        simpa using hdisj f hf e (List.mem_cons_self e rest)
      have hstep : pasoIPs config (e :: rest) (acc, t) =
          pasoIPs config rest (acc ++ [fnd], t + 1) := by
        simp only [pasoIPs, List.foldl_cons, hsc, hany, Bool.false_eq_true, if_false]
        rw [← hfnd]
      rw [hstep, ih (acc ++ [fnd]) (t + 1) hndr ?_]
      · simp [List.filterMap_cons, hg]
        omega
      · intro f hf e' he'
        rcases List.mem_append.mp hf with hfa | hfe
        · exact hdisj f hfa e' (List.mem_cons_of_mem e he')
        · have hfip : f.ip = e.1 := by
            have : f = fnd := by simpa using hfe
            rw [this, hfnd]
          rw [hfip]
          have hke : e.1 ∉ rest.map Prod.fst := by
            have h := hnd
            simp only [List.map_cons, List.nodup_cons] at h
            exact h.1
          intro hcontra
          exact hke (hcontra ▸ List.mem_map_of_mem Prod.fst he')

/-- Counter bookkeeping of `pasoIPs` without any hypotheses (each push is
accompanied by exactly one increment of the counter). -/
theorem pasoIPs_total (config : Config) :
    ∀ (m : List (String × ReqData)) (acc : List IPSospechosa) (t : Nat),
      (pasoIPs config m (acc, t)).2 + acc.length = t + (pasoIPs config m (acc, t)).1.length := by
  intro m
  induction m with
  | nil => intro acc t; simp [pasoIPs]
  | cons e rest ih =>
    intro acc t
    rcases hsc : scanRate config (sortTs e.2.timestamps) with _ | r
    · have hstep : pasoIPs config (e :: rest) (acc, t) = pasoIPs config rest (acc, t) := by
        simp [pasoIPs, List.foldl_cons, hsc]
      rw [hstep]
      exact ih acc t
    · by_cases hany : acc.any (fun item => item.ip == e.1)
      · have hex : ∃ x ∈ acc, x.ip = e.1 := by simpa using hany
        have hstep : pasoIPs config (e :: rest) (acc, t) = pasoIPs config rest (acc, t) := by
          simp [pasoIPs, List.foldl_cons, hsc, hex]
        rw [hstep]
        exact ih acc t
      · have hstep : pasoIPs config (e :: rest) (acc, t) =
            pasoIPs config rest
              (acc ++ [{ ip := e.1, razon := "Exceso de requests por minuto",
                         requests_detectados := r,
                         limite_permitido := config.max_requests_per_minute,
                         ventana_minutos := (config.time_window : ℚ) / 60000 }], t + 1) := by
          simp only [pasoIPs, List.foldl_cons, hsc]
          rw [if_neg hany]
        rw [hstep]
        have := ih (acc ++ [{ ip := e.1, razon := "Exceso de requests por minuto",
                              requests_detectados := r,
                              limite_permitido := config.max_requests_per_minute,
                              ventana_minutos := (config.time_window : ℚ) / 60000 }]) (t + 1)
        simp at this
        omega

/-- Filtering a key-preserving `filterMap` down to one key: with distinct
keys, at most the entry of that key contributes. -/
theorem filterMap_filter_key {β F : Type} (keyOf : F → String) (g : String × β → Option F)
    (hg : ∀ e f, g e = some f → keyOf f = e.1) :
    ∀ (m : List (String × β)), (m.map Prod.fst).Nodup → ∀ k : String,
      (m.filterMap g).filter (fun f => keyOf f == k) =
        ((lookupA m k).bind (fun v => g (k, v))).toList := by
  intro m
  induction m with
  | nil => intro _ k; simp [lookupA]
  | cons e rest ih =>
    intro hnd k
    obtain ⟨k₀, v₀⟩ := e
    have hndr : (rest.map Prod.fst).Nodup := by simpa using hnd.of_cons
    have hk₀ : k₀ ∉ rest.map Prod.fst := by
      have h := hnd
      simp only [List.map_cons, List.nodup_cons] at h
      exact h.1
    by_cases hk : k₀ = k
    · subst hk
      have hrest : (rest.filterMap g).filter (fun f => keyOf f == k₀) = [] := by
        rw [ih hndr k₀]
        have : lookupA rest k₀ = none := (lookupA_eq_none_iff rest k₀).mpr hk₀
        simp [this]
      cases hg₀ : g (k₀, v₀) with
      | none => simp [List.filterMap_cons, hg₀, lookupA, hrest]
      | some f₀ =>
        have : keyOf f₀ = k₀ := hg _ _ hg₀
        simp [List.filterMap_cons, hg₀, lookupA, hrest, List.filter_cons, this]
    · cases hg₀ : g (k₀, v₀) with
      | none => simp [List.filterMap_cons, hg₀, lookupA, hk, ih hndr k]
      | some f₀ =>
        have hne : (keyOf f₀ == k) = false := by
          have : keyOf f₀ = k₀ := hg _ _ hg₀
          simp [this, hk]
        simp [List.filterMap_cons, hg₀, lookupA, hk, ih hndr k, List.filter_cons, hne]

end Algoritmos

namespace Algoritmos

/-! ### The window scan reports exactly the first violating window start -/

theorem sortTs_sorted (l : List Int) : (sortTs l).Pairwise (· ≤ ·) :=
  List.sorted_insertionSort _ l

theorem filter_eq_takeWhile_of_sorted (B : Int) :
    ∀ l : List Int, l.Pairwise (· ≤ ·) →
      l.filter (fun u => decide (u ≤ B)) = l.takeWhile (fun u => decide (u ≤ B)) := by
  intro l
  induction l with
  | nil => intro _; rfl
  | cons a rest ih =>
    intro hp
    have hrest := hp.of_cons
    by_cases ha : a ≤ B
    · simp [List.filter_cons, List.takeWhile_cons, ha, ih hrest]
    · have hnil : rest.filter (fun u => decide (u ≤ B)) = [] := by
        rw [List.filter_eq_nil_iff]
        intro u hu
        simp only [decide_eq_true_eq]
        intro hub
        exact ha (le_trans (List.rel_of_pairwise_cons hp hu) hub)
      simp [List.filter_cons, List.takeWhile_cons, ha, hnil]

theorem countWindowClaim_zero (t : Int) (rest : List Int) (tw : Int) :
    countWindowClaim (t :: rest) 0 tw =
      ((t :: rest).filter (fun u => decide (u ≤ t + tw))).length := rfl

theorem countWindowClaim_succ (t : Int) (rest : List Int) (i : Nat) (tw : Int) :
    countWindowClaim (t :: rest) (i + 1) tw = countWindowClaim rest i tw := rfl

theorem scanRate_cons (config : Config) (t : Int) (rest : List Int) :
    scanRate config (t :: rest) =
      (if rateExceeds ((t :: rest).takeWhile (fun u => decide (u ≤ t + config.time_window))).length
          config.time_window config.max_requests_per_minute then
        some (requestsPerMinute
          ((t :: rest).takeWhile (fun u => decide (u ≤ t + config.time_window))).length
          config.time_window)
      else scanRate config rest) := rfl

theorem scanRate_eq_none_iff (config : Config) :
    ∀ ts : List Int, ts.Pairwise (· ≤ ·) →
      (scanRate config ts = none ↔ ∀ i, i < ts.length → ¬ violacionEn config ts i) := by
  intro ts
  induction ts with
  | nil =>
    intro _
    simp [scanRate]
  | cons t rest ih =>
    intro hp
    have hrest := hp.of_cons
    have hcount : ((t :: rest).takeWhile (fun u => decide (u ≤ t + config.time_window))).length
        = countWindowClaim (t :: rest) 0 config.time_window := by
      rw [countWindowClaim_zero, filter_eq_takeWhile_of_sorted _ _ hp]
    by_cases hviol : violacionEn config (t :: rest) 0
    · have hcond : rateExceeds
          ((t :: rest).takeWhile (fun u => decide (u ≤ t + config.time_window))).length
          config.time_window config.max_requests_per_minute = true := by
        rw [hcount]
        exact hviol
      rw [scanRate_cons, if_pos hcond]
      simp only [reduceCtorEq, false_iff, not_forall]
      exact ⟨0, Nat.succ_pos _, fun h => h hviol⟩
    · have hcond : ¬ (rateExceeds
          ((t :: rest).takeWhile (fun u => decide (u ≤ t + config.time_window))).length
          config.time_window config.max_requests_per_minute = true) := by
        rw [hcount]
        exact hviol
      rw [scanRate_cons, if_neg hcond, ih hrest]
      constructor
      · intro h i hi
        cases i with
        | zero => exact hviol
        | succ i' => exact h i' (Nat.lt_of_succ_lt_succ hi)
      · intro h i hi
        exact h (i + 1) (Nat.succ_lt_succ hi)

theorem scanRate_eq_some_iff (config : Config) :
    ∀ ts : List Int, ts.Pairwise (· ≤ ·) → ∀ r : ℚ,
      (scanRate config ts = some r ↔
        ∃ i, i < ts.length ∧ violacionEn config ts i ∧
          (∀ j, j < i → ¬ violacionEn config ts j) ∧
          r = requestsPerMinute (countWindowClaim ts i config.time_window) config.time_window) := by
  intro ts
  induction ts with
  | nil =>
    intro _ r
    simp [scanRate]
  | cons t rest ih =>
    intro hp r
    have hrest := hp.of_cons
    have hcount : ((t :: rest).takeWhile (fun u => decide (u ≤ t + config.time_window))).length
        = countWindowClaim (t :: rest) 0 config.time_window := by
      rw [countWindowClaim_zero, filter_eq_takeWhile_of_sorted _ _ hp]
    by_cases hviol : violacionEn config (t :: rest) 0
    · have hcond : rateExceeds
          ((t :: rest).takeWhile (fun u => decide (u ≤ t + config.time_window))).length
          config.time_window config.max_requests_per_minute = true := by
        rw [hcount]
        exact hviol
      rw [scanRate_cons, if_pos hcond]
      constructor
      · intro hsome
        have hr : r = requestsPerMinute
            ((t :: rest).takeWhile (fun u => decide (u ≤ t + config.time_window))).length
            config.time_window := by
          exact (Option.some_injective _ hsome).symm
        refine ⟨0, Nat.succ_pos _, hviol, ?_, ?_⟩
        · intro j hj
          exact absurd hj (Nat.not_lt_zero j)
        · rw [hr, hcount]
      · rintro ⟨i, hi, hv, hmin, hr⟩
        have hz : i = 0 := by
          by_contra hne
          exact hmin 0 (Nat.pos_of_ne_zero hne) hviol
        subst hz
        rw [hr]
        exact congrArg some (by rw [hcount])
    · have hcond : ¬ (rateExceeds
          ((t :: rest).takeWhile (fun u => decide (u ≤ t + config.time_window))).length
          config.time_window config.max_requests_per_minute = true) := by
        rw [hcount]
        exact hviol
      rw [scanRate_cons, if_neg hcond, ih hrest r]
      constructor
      · rintro ⟨i, hi, hv, hmin, hr⟩
        refine ⟨i + 1, Nat.succ_lt_succ hi, hv, ?_, hr⟩
        intro j hj
        cases j with
        | zero => exact hviol
        | succ j' => exact hmin j' (Nat.lt_of_succ_lt_succ hj)
      · rintro ⟨i, hi, hv, hmin, hr⟩
        cases i with
        | zero => exact absurd hv hviol
        | succ i' =>
          exact ⟨i', Nat.lt_of_succ_lt_succ hi, hv,
            fun j hj => hmin (j + 1) (Nat.succ_lt_succ hj), hr⟩

end Algoritmos

namespace Algoritmos

/-! ### Unfolding the report's five fields -/

theorem pushPass_fst {β F : Type} (g : String × β → Option F) (m : List (String × β))
    (acc : List F) (t : Nat) : (pushPass g m (acc, t)).1 = acc ++ m.filterMap g := by
  rw [pushPass_eq]

theorem detect_ips (logs : List LogRecord) (config : Config) :
    (detectarActividadSospechosa logs config).ips_sospechosas =
      (pasoIPs config (agregarLogs config logs).requestsPorIP ([], 0)).1 := rfl

theorem detect_fuerza (logs : List LogRecord) (config : Config) :
    (detectarActividadSospechosa logs config).ataques_fuerza_bruta =
      (agregarLogs config logs).fallosLoginPorIP.filterMap (gFuerzaBruta config) := by
  have h : (detectarActividadSospechosa logs config).ataques_fuerza_bruta =
      (pushPass (gFuerzaBruta config) (agregarLogs config logs).fallosLoginPorIP
        ([], (pasoIPs config (agregarLogs config logs).requestsPorIP ([], 0)).2)).1 := rfl
  rw [h, pushPass_fst]
  simp

theorem detect_endpoints (logs : List LogRecord) (config : Config) :
    (detectarActividadSospechosa logs config).endpoints_bajo_ataque =
      (agregarLogs config logs).accesosEndpointSensible.filterMap gEndpoint := by
  have h : (detectarActividadSospechosa logs config).endpoints_bajo_ataque =
      (pushPass gEndpoint (agregarLogs config logs).accesosEndpointSensible
        ([], (pushPass (gFuerzaBruta config) (agregarLogs config logs).fallosLoginPorIP
          ([], (pasoIPs config (agregarLogs config logs).requestsPorIP ([], 0)).2)).2)).1 := rfl
  rw [h, pushPass_fst]
  simp

theorem detect_anomalias (logs : List LogRecord) (config : Config) :
    (detectarActividadSospechosa logs config).anomalias_detectadas =
      (agregarLogs config logs).userAgentsPorIP.filterMap gUserAgents ++
        (agregarLogs config logs).tiemposRespuestaPorIP.filterMap gTiempos := by
  have h : (detectarActividadSospechosa logs config).anomalias_detectadas =
      (pushPass gTiempos (agregarLogs config logs).tiemposRespuestaPorIP
        ((pushPass gUserAgents (agregarLogs config logs).userAgentsPorIP
          ([], (pushPass gEndpoint (agregarLogs config logs).accesosEndpointSensible
            ([], (pushPass (gFuerzaBruta config) (agregarLogs config logs).fallosLoginPorIP
              ([], (pasoIPs config (agregarLogs config logs).requestsPorIP ([], 0)).2)).2)).2)).1,
         (pushPass gUserAgents (agregarLogs config logs).userAgentsPorIP
          ([], (pushPass gEndpoint (agregarLogs config logs).accesosEndpointSensible
            ([], (pushPass (gFuerzaBruta config) (agregarLogs config logs).fallosLoginPorIP
              ([], (pasoIPs config (agregarLogs config logs).requestsPorIP ([], 0)).2)).2)).2)).2)).1 := rfl
  rw [h, pushPass_fst, pushPass_fst]
  simp

/-! ### The rate-abuse findings for one IP (claim C1) -/

theorem gIPs_key (config : Config) (e : String × ReqData) (f : IPSospechosa)
    (hg : gIPs config e = some f) : f.ip = e.1 := by
  rcases hsc : scanRate config (sortTs e.2.timestamps) with _ | r
  · rw [gIPs, hsc] at hg
    simp at hg
  · rw [gIPs, hsc] at hg
    simp at hg
    rw [← hg]

theorem hallazgosRate_eq (logs : List LogRecord) (config : Config) (ip : String) :
    hallazgosRate logs config ip =
      ((lookupA (agregarLogs config logs).requestsPorIP ip).bind
        (fun v => gIPs config (ip, v))).toList := by
  rw [hallazgosRate, detect_ips,
    pasoIPs_eq config _ [] 0 (nodup_keys_agg_req config logs) (by intro f hf; cases hf)]
  simp only [List.nil_append]
  exact filterMap_filter_key (fun f => f.ip) (gIPs config) (gIPs_key config) _
    (nodup_keys_agg_req config logs) ip

end Algoritmos

namespace Algoritmos

/-- Characterization of the rate-abuse findings for one IP: at most one
finding; exactly one iff some window start violates; none otherwise; and the
single finding is the one computed from the first violating window start. -/
theorem rateAbuse_caracterizacion (logs : List LogRecord) (config : Config) (ip : String) :
    (hallazgosRate logs config ip).length ≤ 1 ∧
    ((∃ i, i < (tsDe logs ip).length ∧ violacionEn config (tsDe logs ip) i) →
      (hallazgosRate logs config ip).length = 1) ∧
    ((∀ i, i < (tsDe logs ip).length → ¬ violacionEn config (tsDe logs ip) i) →
      hallazgosRate logs config ip = []) ∧
    (∀ i, i < (tsDe logs ip).length → violacionEn config (tsDe logs ip) i →
      (∀ j, j < i → ¬ violacionEn config (tsDe logs ip) j) →
      hallazgosRate logs config ip =
        [{ ip := ip, razon := "Exceso de requests por minuto",
           requests_detectados := requestsPerMinute
             (countWindowClaim (tsDe logs ip) i config.time_window) config.time_window,
           limite_permitido := config.max_requests_per_minute,
           ventana_minutos := (config.time_window : ℚ) / 60000 }]) := by
  have hmain := hallazgosRate_eq logs config ip
  rcases hown : logs.filter (fun l => l.ip == ip) with _ | ⟨x, xs⟩
  · have hreq : lookupA (agregarLogs config logs).requestsPorIP ip = none := by
      rw [lookupA_agg_req, hown]
    have hfs : hallazgosRate logs config ip = [] := by
      rw [hmain, hreq]
      rfl
    have hts : tsDe logs ip = [] := by
      rw [tsDe, hown]
      rfl
    refine ⟨by rw [hfs]; simp, ?_, fun _ => hfs, ?_⟩
    · rintro ⟨i, hi, -⟩
      rw [hts] at hi
      exact absurd hi (Nat.not_lt_zero i)
    · intro i hi _ _
      rw [hts] at hi
      exact absurd hi (Nat.not_lt_zero i)
  · have hreq : lookupA (agregarLogs config logs).requestsPorIP ip =
        some ⟨(x :: xs).map (fun l => l.timestamp), (x :: xs).length⟩ := by
      rw [lookupA_agg_req, hown]
    have hts : tsDe logs ip = sortTs ((x :: xs).map (fun l => l.timestamp)) := by
      rw [tsDe, hown]
    have hsorted : (tsDe logs ip).Pairwise (· ≤ ·) := by
      rw [hts]
      exact sortTs_sorted _
    have hfs : hallazgosRate logs config ip =
        (gIPs config (ip, ⟨(x :: xs).map (fun l => l.timestamp), (x :: xs).length⟩)).toList := by
      rw [hmain, hreq]
      rfl
    rcases hsc : scanRate config (tsDe logs ip) with _ | r
    · have hnone := (scanRate_eq_none_iff config (tsDe logs ip) hsorted).mp hsc
      rw [hts] at hsc
      have hfs2 : hallazgosRate logs config ip = [] := by
        rw [hfs]
        simp only [gIPs]
        rw [hsc]
        rfl
      refine ⟨by rw [hfs2]; simp, ?_, fun _ => hfs2, ?_⟩
      · rintro ⟨i, hi, hv⟩
        exact absurd hv (hnone i hi)
      · intro i hi hv _
        exact absurd hv (hnone i hi)
    · obtain ⟨i₀, hi₀, hv₀, hmin₀, hr₀⟩ :=
        (scanRate_eq_some_iff config (tsDe logs ip) hsorted r).mp hsc
      rw [hts] at hsc
      have hfs2 : hallazgosRate logs config ip =
          [{ ip := ip, razon := "Exceso de requests por minuto", requests_detectados := r,
             limite_permitido := config.max_requests_per_minute,
             ventana_minutos := (config.time_window : ℚ) / 60000 }] := by
        rw [hfs]
        simp only [gIPs]
        rw [hsc]
        rfl
      refine ⟨by rw [hfs2]; simp, fun _ => by rw [hfs2]; simp, ?_, ?_⟩
      · intro hforall
        exact absurd hv₀ (hforall i₀ hi₀)
      · intro i hi hv hmin
        have hieq : i = i₀ := by
          rcases Nat.lt_trichotomy i i₀ with h | h | h
          · exact absurd hv (hmin₀ i h)
          · exact h
          · exact absurd hv₀ (hmin i₀ h)
        subst hieq
        rw [hfs2, hr₀]

/-- C1: for every batch, policy and IP, the Rate-Abuse Detector reports for
that IP (i) never more than one finding; (ii) exactly one finding when some
window start `i` over the IP's ascending-sorted timestamps makes the
in-window count divided by `time_window / 60000` exceed
`max_requests_per_minute`; (iii) no finding when no window start violates;
and (iv) when `i` is the first (smallest) violating window start, the single
finding is exactly the one computed from that window. -/
theorem rateAbuse_primeraVentana (logs : List LogRecord) (config : Config) (ip : String) :
    (hallazgosRate logs config ip).length ≤ 1 ∧
    ((∃ i, i < (tsDe logs ip).length ∧ violacionEn config (tsDe logs ip) i) →
      (hallazgosRate logs config ip).length = 1) ∧
    ((∀ i, i < (tsDe logs ip).length → ¬ violacionEn config (tsDe logs ip) i) →
      hallazgosRate logs config ip = []) ∧
    (∀ i, i < (tsDe logs ip).length → violacionEn config (tsDe logs ip) i →
      (∀ j, j < i → ¬ violacionEn config (tsDe logs ip) j) →
      hallazgosRate logs config ip =
        [{ ip := ip, razon := "Exceso de requests por minuto",
           requests_detectados := requestsPerMinute
             (countWindowClaim (tsDe logs ip) i config.time_window) config.time_window,
           limite_permitido := config.max_requests_per_minute,
           ventana_minutos := (config.time_window : ℚ) / 60000 }]) :=
  rateAbuse_caracterizacion logs config ip

/-- Witness for C1 at a concrete input: a single request under
`time_window = 0` violates window start 0 (the JS rate is `Infinity`),
so exactly one finding is reported for the IP. -/
theorem rateAbuse_primeraVentana_testigo :
    (hallazgosRate [⟨"a", "/e", 0, 200, "ua", 1⟩] ⟨1, 5, [], 0⟩ "a").length = 1 :=
  (rateAbuse_primeraVentana [⟨"a", "/e", 0, 200, "ua", 1⟩] ⟨1, 5, [], 0⟩ "a").2.1
    ⟨0, by decide, by decide⟩

end Algoritmos

namespace Algoritmos

/-! ### Claim C3: IPs with fewer than two requests -/

theorem tsDe_length (logs : List LogRecord) (ip : String) :
    (tsDe logs ip).length = (logs.filter (fun l => l.ip == ip)).length := by
  rw [tsDe, sortTs, List.length_insertionSort, List.length_map]

/-- C3 counterexample: a single request under a positive one-second window
and a limit of 10 per minute computes a rate of 60 per minute, so an IP
with exactly one request does receive a rate-abuse finding. -/
theorem pocasPeticiones_contraejemplo :
    0 < (⟨10, 5, [], 1000⟩ : Config).time_window ∧
    (([(⟨"b", "/x", 0, 200, "ua", 1⟩ : LogRecord)].filter (fun l => l.ip == "b")).length < 2) ∧
    (hallazgosRate [⟨"b", "/x", 0, 200, "ua", 1⟩] ⟨10, 5, [], 1000⟩ "b").length = 1 := by
  refine ⟨by decide, by decide, ?_⟩
  refine (rateAbuse_caracterizacion _ _ _).2.1 ⟨0, by decide, ?_⟩
  have hts : tsDe [(⟨"b", "/x", 0, 200, "ua", 1⟩ : LogRecord)] "b" = [0] := by decide
  rw [hts]
  have hcount : countWindowClaim [0] 0 (1000 : Int) = 1 := by decide
  simp only [violacionEn, hcount]
  simp [rateExceeds]
  norm_num

/-- C3 (amended): with positive `time_window` and
`60000 ≤ max_requests_per_minute * time_window` (so that the computed rate
of a lone request does not exceed the limit), an IP with fewer than two
requests in the batch never receives a rate-abuse finding. -/
theorem pocasPeticiones_sinHallazgo (logs : List LogRecord) (config : Config) (ip : String)
    (hpos : 0 < config.time_window)
    (hlim : (60000 : ℚ) ≤ config.max_requests_per_minute * (config.time_window : ℚ))
    (hfew : (logs.filter (fun l => l.ip == ip)).length < 2) :
    hallazgosRate logs config ip = [] := by
  refine (rateAbuse_caracterizacion logs config ip).2.2.1 ?_
  intro i hi hv
  have hlen : (tsDe logs ip).length < 2 := by
    rw [tsDe_length]
    exact hfew
  rcases hts0 : tsDe logs ip with _ | ⟨t, rest⟩
  · rw [hts0] at hi
    exact absurd hi (Nat.not_lt_zero i)
  · have hrest : rest = [] := by
      rw [hts0] at hlen
      simp at hlen
      exact List.length_eq_zero.mp (by omega)
    subst hrest
    have hi0 : i = 0 := by
      rw [hts0] at hi
      simpa using Nat.lt_one_iff.mp (by simpa using hi)
    subst hi0
    rw [hts0] at hv
    have hcount : countWindowClaim [t] 0 config.time_window = 1 := by
      have hin : t ≤ t + config.time_window := Int.le_add_of_nonneg_right hpos.le
      simp [countWindowClaim, hin]
    simp only [violacionEn, hcount, rateExceeds, if_neg (by omega : ¬ config.time_window = 0),
      decide_eq_true_eq] at hv
    have htw : (0 : ℚ) < (config.time_window : ℚ) := by exact_mod_cast hpos
    have h1 : ((1 : Nat) : ℚ) / ((config.time_window : ℚ) / 60000) =
        60000 / (config.time_window : ℚ) := by
      field_simp
    rw [h1, lt_div_iff₀ htw] at hv
    linarith

/-- Witness for the amended C3: one request, one-minute window, limit 60 —
no finding. -/
theorem pocasPeticiones_sinHallazgo_testigo :
    hallazgosRate [⟨"a", "/e", 0, 200, "ua", 1⟩] ⟨60, 5, [], 60000⟩ "a" = [] :=
  pocasPeticiones_sinHallazgo [⟨"a", "/e", 0, 200, "ua", 1⟩] ⟨60, 5, [], 60000⟩ "a"
    (by decide) (by simp) (by decide)

end Algoritmos

namespace Algoritmos

/-! ### Claim C2: the brute-force detector -/

theorem getLastD_mem_or (l : List Int) : ∀ d : Int, l.getLastD d = d ∨ l.getLastD d ∈ l := by
  induction l with
  | nil => intro d; left; rfl
  | cons a l' ih =>
    intro d
    rw [List.getLastD_cons]
    rcases ih a with h0 | h0
    · right
      rw [h0]
      exact List.mem_cons_self a l'
    · right
      exact List.mem_cons_of_mem a h0

theorem le_getLastD_from (l : List Int) : ∀ d : Int, (∀ x ∈ l, d ≤ x) →
    l.Pairwise (· ≤ ·) → ∀ t : Int, (t = d ∨ t ∈ l) → t ≤ l.getLastD d := by
  induction l with
  | nil =>
    intro d _ _ t ht
    rcases ht with rfl | hmem
    · exact le_refl t
    · cases hmem
  | cons b l' ih =>
    intro d hall hp t ht
    have hb : ∀ x ∈ l', b ≤ x := fun x hx => List.rel_of_pairwise_cons hp hx
    rw [List.getLastD_cons]
    rcases ht with rfl | hmem
    · have hdb : t ≤ b := hall b (List.mem_cons_self b l')
      have hbl : b ≤ l'.getLastD b := ih b hb hp.of_cons b (Or.inl rfl)
      exact le_trans hdb hbl
    · rcases List.mem_cons.mp hmem with rfl | hmem'
      · exact ih _ hb hp.of_cons _ (Or.inl rfl)
      · exact ih _ hb hp.of_cons _ (Or.inr hmem')

theorem le_getLastD_sorted (l : List Int) (hp : l.Pairwise (· ≤ ·)) (t : Int) (ht : t ∈ l) :
    t ≤ l.getLastD 0 := by
  cases l with
  | nil => cases ht
  | cons a l' =>
    rw [List.getLastD_cons]
    exact le_getLastD_from l' a (fun x hx => List.rel_of_pairwise_cons hp hx) hp.of_cons t
      (by rcases List.mem_cons.mp ht with rfl | hm
          · exact Or.inl rfl
          · exact Or.inr hm)

theorem headD_le_sorted (l : List Int) (hp : l.Pairwise (· ≤ ·)) (t : Int) (ht : t ∈ l) :
    l.headD 0 ≤ t := by
  cases l with
  | nil => cases ht
  | cons a l' =>
    rcases List.mem_cons.mp ht with rfl | hmem
    · exact le_refl t
    · exact List.rel_of_pairwise_cons hp hmem

theorem gFB_key (config : Config) (e : String × FailData) (f : AtaqueFuerzaBruta)
    (hg : gFuerzaBruta config e = some f) : f.ip = e.1 := by
  rw [gFuerzaBruta] at hg
  by_cases hc : config.max_failed_logins < (e.2.count : Int)
  · rw [if_pos hc] at hg
    injection hg with hg
    rw [← hg]
  · rw [if_neg hc] at hg
    cases hg

theorem hallazgosFuerza_eq (logs : List LogRecord) (config : Config) (ip : String) :
    hallazgosFuerza logs config ip =
      ((lookupA (agregarLogs config logs).fallosLoginPorIP ip).bind
        (fun v => gFuerzaBruta config (ip, v))).toList := by
  rw [hallazgosFuerza, detect_fuerza]
  exact filterMap_filter_key (fun f => f.ip) (gFuerzaBruta config) (gFB_key config) _
    (nodup_keys_agg_fallos config logs) ip

/-- C2 counterexample: two failed logins arriving with timestamps 100 then
50 (out of temporal order).  The single finding carries
`first_attempt_time = 100` and `last_attempt_time = 50`, while the minimum
of the recorded failure timestamps is 50 and the maximum is 100 — so
`first_attempt_time` is not the minimum, refuting the claim as stated. -/
theorem fuerzaBruta_contraejemplo :
    (hallazgosFuerza
        [⟨"a", "/api/login", 100, 401, "ua", 1⟩, ⟨"a", "/api/login", 50, 403, "ua", 1⟩]
        ⟨1000000, 1, ["/api/login"], 60000⟩ "a").map
      (fun f => (f.primera_tentativa, f.ultima_tentativa)) = [(100, 50)] ∧
    fallosDe [⟨"a", "/api/login", 100, 401, "ua", 1⟩, ⟨"a", "/api/login", 50, 403, "ua", 1⟩]
      ⟨1000000, 1, ["/api/login"], 60000⟩ "a" = [100, 50] ∧
    (∀ t ∈ ([100, 50] : List Int), 50 ≤ t ∧ t ≤ 100) := by
  refine ⟨?_, by decide, by decide⟩
  rw [hallazgosFuerza_eq, lookupA_agg_fallos]
  decide

/-- C2 (amended): per IP whose failure count strictly exceeds
`max_failed_logins`, exactly one finding is emitted, whose
`first_attempt_time` is the **first** recorded failure timestamp and whose
`last_attempt_time` is the **last**, in batch arrival order (`timestamps[0]`
and `timestamps[length-1]` of the unsorted array); when the recorded
timestamps happen to be in ascending order these are the minimum and the
maximum, both attained.  An IP at or below the limit gets no finding, and
no IP ever gets more than one. -/
theorem fuerzaBruta_umbral (logs : List LogRecord) (config : Config) (ip : String) :
    (hallazgosFuerza logs config ip).length ≤ 1 ∧
    (fallosDe logs config ip ≠ [] →
      config.max_failed_logins < ((fallosDe logs config ip).length : Int) →
      hallazgosFuerza logs config ip =
        [{ ip := ip, tipo_ataque := "Fuerza Bruta en Login",
           intentos_fallidos := (fallosDe logs config ip).length,
           limite_permitido := config.max_failed_logins,
           timestamps_intentos := fallosDe logs config ip,
           primera_tentativa := (fallosDe logs config ip).headD 0,
           ultima_tentativa := (fallosDe logs config ip).getLastD 0 }]) ∧
    (((fallosDe logs config ip).length : Int) ≤ config.max_failed_logins →
      hallazgosFuerza logs config ip = []) ∧
    (fallosDe logs config ip ≠ [] → (fallosDe logs config ip).Pairwise (· ≤ ·) →
      ((fallosDe logs config ip).headD 0 ∈ fallosDe logs config ip ∧
       (fallosDe logs config ip).getLastD 0 ∈ fallosDe logs config ip ∧
       ∀ t ∈ fallosDe logs config ip,
         (fallosDe logs config ip).headD 0 ≤ t ∧ t ≤ (fallosDe logs config ip).getLastD 0)) := by
  have hpart4 : fallosDe logs config ip ≠ [] → (fallosDe logs config ip).Pairwise (· ≤ ·) →
      ((fallosDe logs config ip).headD 0 ∈ fallosDe logs config ip ∧
       (fallosDe logs config ip).getLastD 0 ∈ fallosDe logs config ip ∧
       ∀ t ∈ fallosDe logs config ip,
         (fallosDe logs config ip).headD 0 ≤ t ∧ t ≤ (fallosDe logs config ip).getLastD 0) := by
    intro hne hp
    refine ⟨?_, ?_, fun t ht => ⟨headD_le_sorted _ hp t ht, le_getLastD_sorted _ hp t ht⟩⟩
    · rcases hl : fallosDe logs config ip with _ | ⟨a, l'⟩
      · exact absurd hl hne
      · rw [show (a :: l').headD 0 = a from rfl]
        exact List.mem_cons_self a l'
    · rcases hl : fallosDe logs config ip with _ | ⟨a, l'⟩
      · exact absurd hl hne
      · rw [List.getLastD_cons]
        rcases getLastD_mem_or l' a with h2 | h2
        · rw [h2]
          exact List.mem_cons_self a l'
        · exact List.mem_cons_of_mem a h2
  rcases hflt : logs.filter (fun l => esFalloLogin config l && (l.ip == ip)) with _ | ⟨x, xs⟩
  · have hfde : fallosDe logs config ip = [] := by
      rw [fallosDe, hflt]
      rfl
    have hfs : hallazgosFuerza logs config ip = [] := by
      rw [hallazgosFuerza_eq, lookupA_agg_fallos, hflt]
      rfl
    exact ⟨by rw [hfs]; simp, fun hne _ => absurd hfde hne, fun _ => hfs, hpart4⟩
  · have hfde : fallosDe logs config ip = (x :: xs).map (fun l => l.timestamp) := by
      rw [fallosDe, hflt]
    have hlen : (fallosDe logs config ip).length = (x :: xs).length := by
      rw [hfde, List.length_map]
    by_cases hcond : config.max_failed_logins < ((x :: xs).length : Int)
    · have hfs : hallazgosFuerza logs config ip =
          [{ ip := ip, tipo_ataque := "Fuerza Bruta en Login",
             intentos_fallidos := (fallosDe logs config ip).length,
             limite_permitido := config.max_failed_logins,
             timestamps_intentos := fallosDe logs config ip,
             primera_tentativa := (fallosDe logs config ip).headD 0,
             ultima_tentativa := (fallosDe logs config ip).getLastD 0 }] := by
        rw [hallazgosFuerza_eq, lookupA_agg_fallos, hflt]
        show (gFuerzaBruta config
          (ip, ⟨(x :: xs).length, (x :: xs).map (fun l => l.timestamp)⟩)).toList = _
        simp only [gFuerzaBruta]
        rw [if_pos hcond, hfde]
        simp
      refine ⟨by rw [hfs]; simp, fun _ _ => hfs, ?_, hpart4⟩
      intro hle
      rw [hlen] at hle
      exact absurd hcond (not_lt.mpr hle)
    · have hfs : hallazgosFuerza logs config ip = [] := by
        rw [hallazgosFuerza_eq, lookupA_agg_fallos, hflt]
        show (gFuerzaBruta config
          (ip, ⟨(x :: xs).length, (x :: xs).map (fun l => l.timestamp)⟩)).toList = _
        simp only [gFuerzaBruta]
        rw [if_neg hcond]
        rfl
      refine ⟨by rw [hfs]; simp, ?_, fun _ => hfs, hpart4⟩
      intro _ hlt
      rw [hlen] at hlt
      exact absurd hlt hcond

/-- Witness for the amended C2: two failed logins with ascending timestamps
against a limit of 1 give exactly one finding with first 50 and last 100. -/
theorem fuerzaBruta_umbral_testigo :
    hallazgosFuerza
      [⟨"a", "/api/login", 50, 401, "ua", 1⟩, ⟨"a", "/api/login", 100, 403, "ua", 1⟩]
      ⟨1000000, 1, ["/api/login"], 60000⟩ "a" =
      [⟨"a", "Fuerza Bruta en Login", 2, 1, [50, 100], 50, 100⟩] := by
  have h := (fuerzaBruta_umbral
      [⟨"a", "/api/login", 50, 401, "ua", 1⟩, ⟨"a", "/api/login", 100, 403, "ua", 1⟩]
      ⟨1000000, 1, ["/api/login"], 60000⟩ "a").2.1 (by decide) (by decide)
  rw [h]
  decide

end Algoritmos

namespace Algoritmos

/-! ### Claim C5: the mass-scan detector -/

theorem gEp_key (e : String × EndpointData) (f : EndpointBajoAtaque)
    (hg : gEndpoint e = some f) : f.endpoint = e.1 := by
  simp only [gEndpoint] at hg
  by_cases hc : 10 < e.2.ips.toFinset.card
  · rw [if_pos hc] at hg
    injection hg with hg
    rw [← hg]
  · rw [if_neg hc] at hg
    cases hg

theorem hallazgosEndpoint_eq (logs : List LogRecord) (config : Config) (ep : String) :
    hallazgosEndpoint logs config ep =
      ((lookupA (agregarLogs config logs).accesosEndpointSensible ep).bind
        (fun v => gEndpoint (ep, v))).toList := by
  rw [hallazgosEndpoint, detect_endpoints]
  exact filterMap_filter_key (fun f => f.endpoint) gEndpoint gEp_key _
    (nodup_keys_agg_endpoint config logs) ep

/-- C5: an endpoint gets exactly one mass-scan finding iff it is in the
policy's suspicious set and was accessed by strictly more than 10 distinct
IPs; the finding reports the distinct-IP count (deduplicated at detection
time) and the total access count.  Endpoints outside the suspicious set are
never evaluated, and at 10 distinct IPs nothing is reported. -/
theorem accesoMasivo_unico (logs : List LogRecord) (config : Config) (ep : String) :
    hallazgosEndpoint logs config ep =
      (if config.suspicious_endpoints.contains ep ∧
          10 < ((logs.filter (fun l => l.endpoint == ep)).map (fun l => l.ip)).toFinset.card then
        [{ endpoint := ep,
           total_accesos := (logs.filter (fun l => l.endpoint == ep)).length,
           ips_unicas :=
             ((logs.filter (fun l => l.endpoint == ep)).map (fun l => l.ip)).toFinset.card,
           descripcion := "Acceso masivo desde múltiples IPs" }]
      else []) := by
  by_cases hsus : config.suspicious_endpoints.contains ep
  · have hfeq : logs.filter
        (fun l => config.suspicious_endpoints.contains l.endpoint && (l.endpoint == ep)) =
        logs.filter (fun l => l.endpoint == ep) := by
      apply List.filter_congr
      intro l _
      by_cases he : l.endpoint = ep
      · rw [he, hsus, Bool.true_and]
      · simp [he]
    rw [hallazgosEndpoint_eq, lookupA_agg_endpoint, hfeq]
    rcases hflt : logs.filter (fun l => l.endpoint == ep) with _ | ⟨x, xs⟩
    · rw [hflt]
      simp
    · rw [hflt]
      show (gEndpoint (ep, ⟨(x :: xs).length, (x :: xs).map (fun l => l.ip)⟩)).toList = _
      simp only [gEndpoint]
      by_cases hcard : 10 < ((x :: xs).map (fun l => l.ip)).toFinset.card
      · rw [if_pos hcard, if_pos ⟨hsus, hcard⟩]
        rfl
      · rw [if_neg hcard, if_neg (fun h => hcard h.2)]
        rfl
  · have hfeq : logs.filter
        (fun l => config.suspicious_endpoints.contains l.endpoint && (l.endpoint == ep)) = [] := by
      rw [List.filter_eq_nil_iff]
      intro l _
      by_cases he : l.endpoint = ep
      · rw [he]
        simp only [Bool.and_eq_true, beq_self_eq_true, and_true]
        intro hc
        exact hsus hc
      · simp [he]
    rw [hallazgosEndpoint_eq, lookupA_agg_endpoint, hfeq, if_neg (fun h => hsus h.1)]
    rfl

/-! ### Claim C8: the shared event counter -/

/-- C8: `total_eventos_sospechosos` equals the sum of the lengths of the
four findings collections (each push into a collection is accompanied by
exactly one increment of the counter). -/
theorem total_eventos_suma (logs : List LogRecord) (config : Config) :
    (detectarActividadSospechosa logs config).total_eventos_sospechosos =
      (detectarActividadSospechosa logs config).ips_sospechosas.length +
      (detectarActividadSospechosa logs config).ataques_fuerza_bruta.length +
      (detectarActividadSospechosa logs config).endpoints_bajo_ataque.length +
      (detectarActividadSospechosa logs config).anomalias_detectadas.length := by
  have e1 := pasoIPs_total config (agregarLogs config logs).requestsPorIP [] 0
  simp only [detectarActividadSospechosa, pasoFuerzaBruta, pasoEndpoints, pasoUserAgents,
    pasoTiempos, pushPass_eq]
  simp only [List.nil_append, List.length_append]
  simp only [List.length_nil, Nat.add_zero] at e1
  omega

end Algoritmos

namespace Algoritmos

/-! ### The per-IP user-agent frequency table -/

theorem sum_updateA_count (t : List (String × Nat)) (k : String) :
    ((updateA t k 0 (· + 1)).map Prod.snd).sum = (t.map Prod.snd).sum + 1 := by
  induction t with
  | nil => simp [updateA]
  | cons e rest ih =>
    obtain ⟨k₀, v⟩ := e
    by_cases h : k₀ = k
    · subst h
      simp [updateA]
      omega
    · simp [updateA, h, ih]
      omega

theorem uaTable_sum_aux (l : List String) : ∀ t : List (String × Nat),
    (((l.foldl (fun t ua => updateA t ua 0 (· + 1)) t)).map Prod.snd).sum =
      (t.map Prod.snd).sum + l.length := by
  induction l with
  | nil => intro t; simp
  | cons a l' ih =>
    intro t
    rw [List.foldl_cons, ih, sum_updateA_count]
    simp
    omega

theorem uaTable_sum (l : List String) : ((uaTable l).map Prod.snd).sum = l.length := by
  rw [uaTable, uaTable_sum_aux]
  simp

theorem mem_keys_updateA (t : List (String × Nat)) (k a : String) :
    (a ∈ (updateA t k 0 (· + 1)).map Prod.fst ↔ a ∈ t.map Prod.fst ∨ a = k) := by
  rw [keys_updateA]
  by_cases hk : k ∈ t.map Prod.fst
  · rw [if_pos hk]
    constructor
    · exact Or.inl
    · rintro (h | rfl)
      · exact h
      · exact hk
  · rw [if_neg hk]
    simp

theorem mem_keys_uaTable_aux (l : List String) : ∀ (t : List (String × Nat)) (a : String),
    (a ∈ ((l.foldl (fun t ua => updateA t ua 0 (· + 1)) t)).map Prod.fst ↔
      a ∈ t.map Prod.fst ∨ a ∈ l) := by
  induction l with
  | nil => intro t a; simp
  | cons b l' ih =>
    intro t a
    rw [List.foldl_cons, ih, mem_keys_updateA]
    constructor
    · rintro ((h | rfl) | h)
      · exact Or.inl h
      · exact Or.inr (List.mem_cons_self _ l')
      · exact Or.inr (List.mem_cons_of_mem b h)
    · rintro (h | h)
      · exact Or.inl (Or.inl h)
      · rcases List.mem_cons.mp h with rfl | h'
        · exact Or.inl (Or.inr rfl)
        · exact Or.inr h'

theorem mem_keys_uaTable (l : List String) (a : String) :
    a ∈ (uaTable l).map Prod.fst ↔ a ∈ l := by
  rw [uaTable, mem_keys_uaTable_aux]
  simp

theorem nodup_keys_uaTable_aux (l : List String) : ∀ t : List (String × Nat),
    (t.map Prod.fst).Nodup →
    (((l.foldl (fun t ua => updateA t ua 0 (· + 1)) t)).map Prod.fst).Nodup := by
  induction l with
  | nil => intro t ht; simpa
  | cons b l' ih =>
    intro t ht
    rw [List.foldl_cons]
    exact ih _ (nodup_keys_updateA t b 0 (· + 1) ht)

theorem nodup_keys_uaTable (l : List String) : ((uaTable l).map Prod.fst).Nodup := by
  rw [uaTable]
  exact nodup_keys_uaTable_aux l [] (by simp)

theorem uaTable_length (l : List String) : (uaTable l).length = l.dedup.length := by
  have h1 : (uaTable l).length = ((uaTable l).map Prod.fst).length := by
    rw [List.length_map]
  have h2 : ((uaTable l).map Prod.fst).toFinset.card = ((uaTable l).map Prod.fst).length :=
    List.toFinset_card_of_nodup (nodup_keys_uaTable l)
  have h3 : ((uaTable l).map Prod.fst).toFinset = l.toFinset := by
    ext a
    simp only [List.mem_toFinset]
    exact mem_keys_uaTable l a
  rw [h1, ← h2, h3, List.card_toFinset]

/-! ### The most common user agent: first index attaining the maximum -/

theorem foldl_max_mem (l : List Nat) : ∀ a : Nat, l.foldl max a = a ∨ l.foldl max a ∈ l := by
  induction l with
  | nil => intro a; left; rfl
  | cons b l' ih =>
    intro a
    rw [List.foldl_cons]
    rcases ih (max a b) with h | h
    · rcases max_choice a b with hm | hm
      · left
        rw [h, hm]
      · right
        rw [h, hm]
        exact List.mem_cons_self b l'
    · right
      exact List.mem_cons_of_mem b h

theorem listMax_mem (l : List Nat) (h : l ≠ []) : listMax l ∈ l := by
  cases l with
  | nil => exact absurd rfl h
  | cons b l' =>
    have h0 : listMax (b :: l') = l'.foldl max b := by
      rw [listMax, List.foldl_cons, Nat.zero_max]
    rw [h0]
    rcases foldl_max_mem l' b with h1 | h1
    · rw [h1]
      exact List.mem_cons_self b l'
    · exact List.mem_cons_of_mem b h1

theorem le_foldl_max (l : List Nat) : ∀ a : Nat, a ≤ l.foldl max a ∧ ∀ x ∈ l, x ≤ l.foldl max a := by
  induction l with
  | nil =>
    intro a
    exact ⟨le_refl a, fun x hx => absurd hx (List.not_mem_nil x)⟩
  | cons b l' ih =>
    intro a
    rw [List.foldl_cons]
    obtain ⟨h1, h2⟩ := ih (max a b)
    refine ⟨le_trans (Nat.le_max_left a b) h1, fun x hx => ?_⟩
    rcases List.mem_cons.mp hx with rfl | hx'
    · exact le_trans (Nat.le_max_right a x) h1
    · exact h2 x hx'

theorem le_listMax (l : List Nat) (x : Nat) (hx : x ∈ l) : x ≤ listMax l :=
  (le_foldl_max l 0).2 x hx

theorem find?_indexOfJS (table : List (String × Nat)) : ∀ mx : Nat, mx ∈ table.map Prod.snd →
    table.find? (fun p => p.2 == mx) =
      some ((table.map Prod.fst).getD (indexOfJS (table.map Prod.snd) mx) "", mx) := by
  induction table with
  | nil =>
    intro mx hmx
    cases hmx
  | cons e rest ih =>
    intro mx hmx
    obtain ⟨a, c⟩ := e
    by_cases hc : c = mx
    · subst hc
      simp [List.find?_cons, indexOfJS]
    · have hmx' : mx ∈ rest.map Prod.snd := by
        rcases List.mem_cons.mp hmx with h | h
        · exact absurd h.symm hc
        · exact h
      have hfind : ((a, c) :: rest).find? (fun p => p.2 == mx) =
          rest.find? (fun p => p.2 == mx) := by
        rw [List.find?_cons]
        have hcf : (c == mx) = false := by simp [hc]
        rw [hcf]
      rw [hfind, ih mx hmx']
      have hidx : indexOfJS (((a, c) :: rest).map Prod.snd) mx =
          indexOfJS (rest.map Prod.snd) mx + 1 := by
        simp [indexOfJS, hc]
      rw [hidx]
      rfl

theorem userAgentMasComun_spec (table : List (String × Nat)) (hne : table ≠ []) :
    table.find? (fun p => p.2 == listMax (table.map Prod.snd)) =
      some (userAgentMasComun table, listMax (table.map Prod.snd)) := by
  have hmem : listMax (table.map Prod.snd) ∈ table.map Prod.snd := by
    apply listMax_mem
    simpa using hne
  rw [find?_indexOfJS table _ hmem]
  rfl

end Algoritmos

namespace Algoritmos

/-! ### Splitting the anomaly collection by kind -/

theorem gUA_shape (e : String × List (String × Nat)) (f : Anomalia)
    (hg : gUserAgents e = some f) :
    f.esMultiplesUA = true ∧ f.esTiemposIrregulares = false ∧ f.ipDe = e.1 := by
  simp only [gUserAgents] at hg
  by_cases h5 : 5 < (e.2.map Prod.fst).length
  · rw [if_pos h5] at hg
    injection hg with hg
    rw [← hg]
    exact ⟨rfl, rfl, rfl⟩
  · rw [if_neg h5] at hg
    cases hg

theorem gT_shape (e : String × List ℚ) (f : Anomalia) (hg : gTiempos e = some f) :
    f.esMultiplesUA = false ∧ f.esTiemposIrregulares = true ∧ f.ipDe = e.1 := by
  simp only [gTiempos] at hg
  by_cases hc : desvCond (varianzaDe e.2) (promedioDe e.2)
  · rw [if_pos hc] at hg
    injection hg with hg
    rw [← hg]
    exact ⟨rfl, rfl, rfl⟩
  · rw [if_neg hc] at hg
    cases hg

theorem filter_and_of_true {F : Type} (p q : F → Bool) (l : List F)
    (h : ∀ f ∈ l, p f = true) : l.filter (fun f => p f && q f) = l.filter q := by
  apply List.filter_congr
  intro a ha
  rw [h a ha, Bool.true_and]

theorem filter_and_of_false {F : Type} (p q : F → Bool) (l : List F)
    (h : ∀ f ∈ l, p f = false) : l.filter (fun f => p f && q f) = [] := by
  rw [List.filter_eq_nil_iff]
  intro a ha
  rw [h a ha]
  simp

theorem anomaliasUA_eq (logs : List LogRecord) (config : Config) (ip : String) :
    anomaliasUA logs config ip =
      ((lookupA (agregarLogs config logs).userAgentsPorIP ip).bind
        (fun v => gUserAgents (ip, v))).toList := by
  rw [anomaliasUA, detect_anomalias, List.filter_append]
  have h2 : ((agregarLogs config logs).tiemposRespuestaPorIP.filterMap gTiempos).filter
      (fun a => a.esMultiplesUA && (a.ipDe == ip)) = [] := by
    apply filter_and_of_false
    intro f hf
    obtain ⟨e, -, hg⟩ := List.mem_filterMap.mp hf
    exact (gT_shape e f hg).1
  have h1 : ((agregarLogs config logs).userAgentsPorIP.filterMap gUserAgents).filter
      (fun a => a.esMultiplesUA && (a.ipDe == ip)) =
      ((agregarLogs config logs).userAgentsPorIP.filterMap gUserAgents).filter
      (fun a => a.ipDe == ip) := by
    apply filter_and_of_true
    intro f hf
    obtain ⟨e, -, hg⟩ := List.mem_filterMap.mp hf
    exact (gUA_shape e f hg).1
  rw [h1, h2, List.append_nil]
  exact filterMap_filter_key Anomalia.ipDe gUserAgents
    (fun e f hg => (gUA_shape e f hg).2.2) _ (nodup_keys_agg_ua config logs) ip

theorem anomaliasTiempos_eq (logs : List LogRecord) (config : Config) (ip : String) :
    anomaliasTiempos logs config ip =
      ((lookupA (agregarLogs config logs).tiemposRespuestaPorIP ip).bind
        (fun v => gTiempos (ip, v))).toList := by
  rw [anomaliasTiempos, detect_anomalias, List.filter_append]
  have h1 : ((agregarLogs config logs).userAgentsPorIP.filterMap gUserAgents).filter
      (fun a => a.esTiemposIrregulares && (a.ipDe == ip)) = [] := by
    apply filter_and_of_false
    intro f hf
    obtain ⟨e, -, hg⟩ := List.mem_filterMap.mp hf
    exact (gUA_shape e f hg).2.1
  have h2 : ((agregarLogs config logs).tiemposRespuestaPorIP.filterMap gTiempos).filter
      (fun a => a.esTiemposIrregulares && (a.ipDe == ip)) =
      ((agregarLogs config logs).tiemposRespuestaPorIP.filterMap gTiempos).filter
      (fun a => a.ipDe == ip) := by
    apply filter_and_of_true
    intro f hf
    obtain ⟨e, -, hg⟩ := List.mem_filterMap.mp hf
    exact (gT_shape e f hg).2.1
  rw [h1, h2, List.nil_append]
  exact filterMap_filter_key Anomalia.ipDe gTiempos
    (fun e f hg => (gT_shape e f hg).2.2) _ (nodup_keys_agg_tiempos config logs) ip

/-! ### Claim C6: the multi-user-agent anomaly -/

theorem foldl_add_eq_sum (l : List Nat) : ∀ a : Nat, l.foldl (· + ·) a = a + l.sum := by
  induction l with
  | nil => intro a; simp
  | cons b l' ih =>
    intro a
    rw [List.foldl_cons, ih]
    simp [List.sum_cons]
    omega

/-- C6: an IP gets exactly one multi-agent anomaly iff it used strictly more
than 5 distinct user-agent strings; the finding carries the distinct-agent
count, the first table entry attaining the maximal per-agent count (maximal
among all entries), and the total request count of the IP (which equals the
sum of the per-agent counts). -/
theorem userAgents_anomalia (logs : List LogRecord) (config : Config) (ip : String) :
    (anomaliasUA logs config ip =
      (if 5 < ((logs.filter (fun l => l.ip == ip)).map (fun l => l.user_agent)).dedup.length then
        [Anomalia.multiplesUA ip
          (uaTable ((logs.filter (fun l => l.ip == ip)).map (fun l => l.user_agent))).length
          (userAgentMasComun
            (uaTable ((logs.filter (fun l => l.ip == ip)).map (fun l => l.user_agent))))
          ((logs.filter (fun l => l.ip == ip)).map (fun l => l.user_agent)).length
          "Comportamiento sospechoso: demasiados User-Agents diferentes"]
      else [])) ∧
    (uaTable ((logs.filter (fun l => l.ip == ip)).map (fun l => l.user_agent))).length =
      ((logs.filter (fun l => l.ip == ip)).map (fun l => l.user_agent)).dedup.length ∧
    ((uaTable ((logs.filter (fun l => l.ip == ip)).map (fun l => l.user_agent))).map
        Prod.snd).sum =
      ((logs.filter (fun l => l.ip == ip)).map (fun l => l.user_agent)).length ∧
    (logs.filter (fun l => l.ip == ip) ≠ [] →
      ((uaTable ((logs.filter (fun l => l.ip == ip)).map (fun l => l.user_agent))).find?
          (fun p => p.2 == listMax ((uaTable ((logs.filter (fun l => l.ip == ip)).map
            (fun l => l.user_agent))).map Prod.snd)) =
        some (userAgentMasComun
            (uaTable ((logs.filter (fun l => l.ip == ip)).map (fun l => l.user_agent))),
          listMax ((uaTable ((logs.filter (fun l => l.ip == ip)).map
            (fun l => l.user_agent))).map Prod.snd)) ∧
       ∀ p ∈ uaTable ((logs.filter (fun l => l.ip == ip)).map (fun l => l.user_agent)),
         p.2 ≤ listMax ((uaTable ((logs.filter (fun l => l.ip == ip)).map
           (fun l => l.user_agent))).map Prod.snd))) := by
  refine ⟨?_, uaTable_length _, uaTable_sum _, ?_⟩
  · rw [anomaliasUA_eq, lookupA_agg_ua]
    rcases hflt : logs.filter (fun l => l.ip == ip) with _ | ⟨x, xs⟩
    · rw [hflt]
      simp
    · rw [hflt]
      show (gUserAgents (ip, uaTable ((x :: xs).map (fun l => l.user_agent)))).toList = _
      simp only [gUserAgents]
      have hklen : ((uaTable ((x :: xs).map (fun l => l.user_agent))).map Prod.fst).length =
          (uaTable ((x :: xs).map (fun l => l.user_agent))).length := List.length_map _ _
      have hdl : (uaTable ((x :: xs).map (fun l => l.user_agent))).length =
          ((x :: xs).map (fun l => l.user_agent)).dedup.length := uaTable_length _
      by_cases h5 : 5 < ((x :: xs).map (fun l => l.user_agent)).dedup.length
      · rw [if_pos (by rw [hklen, hdl]; exact h5), if_pos h5]
        have hsum : ((uaTable ((x :: xs).map (fun l => l.user_agent))).map Prod.snd).foldl
            (· + ·) 0 = ((x :: xs).map (fun l => l.user_agent)).length := by
          rw [foldl_add_eq_sum, Nat.zero_add, uaTable_sum]
        rw [Option.toList_some]
        rw [hklen, hdl, hsum]
      · rw [if_neg (by rw [hklen, hdl]; exact h5), if_neg h5]
        rfl
  · intro hne
    have hne' : uaTable ((logs.filter (fun l => l.ip == ip)).map (fun l => l.user_agent)) ≠ [] := by
      intro hcontra
      have := uaTable_sum ((logs.filter (fun l => l.ip == ip)).map (fun l => l.user_agent))
      rw [hcontra] at this
      simp at this
      exact hne (List.length_eq_zero.mp this.symm)
    exact ⟨userAgentMasComun_spec _ hne',
      fun p hp => le_listMax _ p.2 (List.mem_map_of_mem Prod.snd hp)⟩

/-- Witness for C6: six distinct user agents from one IP produce exactly the
multi-agent anomaly with `agent_count = 6` and most common agent the first
one; five distinct agents (dropping one record) produce nothing. -/
theorem userAgents_anomalia_testigo :
    anomaliasUA
      [⟨"a", "/e", 0, 200, "u1", 1⟩, ⟨"a", "/e", 1, 200, "u2", 1⟩, ⟨"a", "/e", 2, 200, "u3", 1⟩,
       ⟨"a", "/e", 3, 200, "u4", 1⟩, ⟨"a", "/e", 4, 200, "u5", 1⟩, ⟨"a", "/e", 5, 200, "u6", 1⟩]
      ⟨60, 5, [], 60000⟩ "a" =
      [Anomalia.multiplesUA "a" 6 "u1" 6
        "Comportamiento sospechoso: demasiados User-Agents diferentes"] := by
  have h := (userAgents_anomalia
      [⟨"a", "/e", 0, 200, "u1", 1⟩, ⟨"a", "/e", 1, 200, "u2", 1⟩, ⟨"a", "/e", 2, 200, "u3", 1⟩,
       ⟨"a", "/e", 3, 200, "u4", 1⟩, ⟨"a", "/e", 4, 200, "u5", 1⟩, ⟨"a", "/e", 5, 200, "u6", 1⟩]
      ⟨60, 5, [], 60000⟩ "a").1
  rw [h]
  decide

end Algoritmos

namespace Algoritmos

/-! ### Claim C7: the latency-variance anomaly -/

theorem toList_length_le_one {α : Type} (o : Option α) : o.toList.length ≤ 1 := by
  cases o <;> simp

theorem foldl_add_eq_sum_q (l : List ℚ) : ∀ a : ℚ, l.foldl (· + ·) a = a + l.sum := by
  induction l with
  | nil => intro a; simp
  | cons b l' ih =>
    intro a
    rw [List.foldl_cons, ih, List.sum_cons]
    ring

theorem foldl_add_sq_eq_sum (l : List ℚ) (m : ℚ) :
    ∀ a : ℚ, l.foldl (fun s t => s + (t - m) ^ 2) a = a + (l.map (fun t => (t - m) ^ 2)).sum := by
  induction l with
  | nil => intro a; simp
  | cons b l' ih =>
    intro a
    rw [List.foldl_cons, ih, List.map_cons, List.sum_cons]
    ring

theorem promedioDe_eq (l : List ℚ) : promedioDe l = promedioClaim l := by
  rw [promedioDe, promedioClaim, foldl_add_eq_sum_q, zero_add]

theorem varianzaDe_eq (l : List ℚ) : varianzaDe l = varianzaClaim l := by
  rw [varianzaDe, varianzaClaim, foldl_add_sq_eq_sum, zero_add, promedioDe_eq]

theorem varianzaClaim_nonneg (l : List ℚ) : 0 ≤ varianzaClaim l := by
  rw [varianzaClaim]
  apply div_nonneg
  · apply List.sum_nonneg
    intro x hx
    obtain ⟨t, -, rfl⟩ := List.mem_map.mp hx
    exact sq_nonneg _
  · exact_mod_cast Nat.zero_le l.length

theorem desvCond_iff (v m : ℚ) (_hv : 0 ≤ v) :
    desvCond v m = true ↔ (m : ℝ) * 1.5 < Real.sqrt (v : ℝ) := by
  rw [desvCond, decide_eq_true_eq]
  have hcast : ((m * 1.5 : ℚ) : ℝ) = (m : ℝ) * 1.5 := by
    push_cast
    norm_num
  constructor
  · rintro (hneg | hsq)
    · have : ((m * 1.5 : ℚ) : ℝ) < 0 := by exact_mod_cast hneg
      rw [hcast] at this
      exact lt_of_lt_of_le this (Real.sqrt_nonneg _)
    · by_cases hmn : m * 1.5 < 0
      · have : ((m * 1.5 : ℚ) : ℝ) < 0 := by exact_mod_cast hmn
        rw [hcast] at this
        exact lt_of_lt_of_le this (Real.sqrt_nonneg _)
      · push_neg at hmn
        have hmr : (0 : ℝ) ≤ ((m * 1.5 : ℚ) : ℝ) := by exact_mod_cast hmn
        rw [← hcast]
        rw [Real.lt_sqrt hmr]
        have : (((m * 1.5) ^ 2 : ℚ) : ℝ) < ((v : ℚ) : ℝ) := by exact_mod_cast hsq
        calc ((m * 1.5 : ℚ) : ℝ) ^ 2 = (((m * 1.5) ^ 2 : ℚ) : ℝ) := by push_cast; ring
          _ < (v : ℝ) := this
  · intro hlt
    by_cases hmn : m * 1.5 < 0
    · exact Or.inl hmn
    · right
      push_neg at hmn
      have hmr : (0 : ℝ) ≤ ((m * 1.5 : ℚ) : ℝ) := by exact_mod_cast hmn
      rw [← hcast, Real.lt_sqrt hmr] at hlt
      have : (((m * 1.5) ^ 2 : ℚ) : ℝ) < ((v : ℚ) : ℝ) := by
        calc (((m * 1.5) ^ 2 : ℚ) : ℝ) = ((m * 1.5 : ℚ) : ℝ) ^ 2 := by push_cast; ring
          _ < (v : ℝ) := hlt
      exact_mod_cast this

/-- C7 counterexample: an IP with exactly one response-time sample, of value
−1, does trigger the latency anomaly (its standard deviation is 0 but
`0 > 1.5 · (−1)`), refuting the claim's `never triggers` clause. -/
theorem desviacion_contraejemplo :
    ((([⟨"c", "/x", 0, 200, "ua", -1⟩] : List LogRecord).filter
        (fun l => l.ip == "c")).map (fun l => l.response_time)) = [-1] ∧
    (anomaliasTiempos [⟨"c", "/x", 0, 200, "ua", -1⟩] ⟨60, 5, [], 60000⟩ "c").length = 1 := by
  constructor
  · simp
  · rw [anomaliasTiempos_eq, lookupA_agg_tiempos]
    have hflt : ([(⟨"c", "/x", 0, 200, "ua", -1⟩ : LogRecord)]).filter
        (fun l => l.ip == "c") = [⟨"c", "/x", 0, 200, "ua", -1⟩] := by simp
    rw [hflt]
    show ((gTiempos ("c", [-1])).toList).length = 1
    have hcond : desvCond (varianzaDe [-1]) (promedioDe [-1]) = true := by
      have hm : promedioDe [-1] = -1 := by
        simp [promedioDe]
      rw [desvCond, hm, decide_eq_true_eq]
      left
      norm_num
    simp [gTiempos, hcond]

/-- C7 (amended): the latency-anomaly check fires for an IP in the batch iff
the population standard deviation (square root of summed squared deviations
divided by the full sample count) of its response-time samples strictly
exceeds 1.5 times their arithmetic mean; at most one finding is emitted per
IP, and an IP with exactly one **nonnegative** sample never triggers (a
single negative sample does trigger, since its deviation 0 exceeds the
negative threshold). -/
theorem desviacion_criterio (logs : List LogRecord) (config : Config) (ip : String) :
    ((anomaliasTiempos logs config ip ≠ []) ↔
      (logs.filter (fun l => l.ip == ip) ≠ [] ∧
        (promedioClaim ((logs.filter (fun l => l.ip == ip)).map (fun l => l.response_time)) : ℝ)
            * 1.5 <
          Real.sqrt
            (varianzaClaim ((logs.filter (fun l => l.ip == ip)).map (fun l => l.response_time)) :
              ℝ))) ∧
    (anomaliasTiempos logs config ip).length ≤ 1 ∧
    (∀ r : ℚ, (logs.filter (fun l => l.ip == ip)).map (fun l => l.response_time) = [r] →
      0 ≤ r → anomaliasTiempos logs config ip = []) := by
  have hmain := anomaliasTiempos_eq logs config ip
  rcases hflt : logs.filter (fun l => l.ip == ip) with _ | ⟨x, xs⟩
  · have hfs : anomaliasTiempos logs config ip = [] := by
      rw [hmain, lookupA_agg_tiempos, hflt]
      rfl
    refine ⟨?_, by rw [hfs]; simp, ?_⟩
    · rw [hfs]
      simp [hflt]
    · intro r hr _
      exact hfs
  · have hfs : anomaliasTiempos logs config ip =
        (gTiempos (ip, (x :: xs).map (fun l => l.response_time))).toList := by
      rw [hmain, lookupA_agg_tiempos, hflt]
      rfl
    have hiff : anomaliasTiempos logs config ip ≠ [] ↔
        desvCond (varianzaDe ((x :: xs).map (fun l => l.response_time)))
          (promedioDe ((x :: xs).map (fun l => l.response_time))) = true := by
      rw [hfs]
      simp only [gTiempos]
      by_cases hc : desvCond (varianzaDe ((x :: xs).map (fun l => l.response_time)))
          (promedioDe ((x :: xs).map (fun l => l.response_time))) = true
      · rw [if_pos hc]
        simpa using hc
      · rw [if_neg hc]
        simpa using hc
    refine ⟨?_, ?_, ?_⟩
    · rw [hiff, varianzaDe_eq, promedioDe_eq,
        desvCond_iff _ _ (varianzaClaim_nonneg _)]
      constructor
      · intro h
        exact ⟨by rw [hflt]; exact List.cons_ne_nil x xs, by rw [hflt]; exact h⟩
      · intro h
        have := h.2
        rw [hflt] at this
        exact this
    · rw [hfs]
      exact toList_length_le_one _
    · intro r hr hrpos
      rw [hflt] at hr
      rw [hfs, hr]
      have hm : promedioDe [r] = r := by simp [promedioDe]
      have hv : varianzaDe [r] = 0 := by
        simp [varianzaDe, hm]
      have hcond : desvCond (varianzaDe [r]) (promedioDe [r]) = false := by
        rw [hm, hv, desvCond]
        simp only [decide_eq_false_iff_not]
        rintro (hneg | hsq)
        · nlinarith
        · nlinarith [sq_nonneg (r * 1.5)]
      simp [gTiempos, hcond]

/-- Witness for the amended C7: a single sample of value 1 triggers nothing. -/
theorem desviacion_criterio_testigo :
    anomaliasTiempos [⟨"a", "/e", 0, 200, "ua", 1⟩] ⟨60, 5, [], 60000⟩ "a" = [] := by
  have h := (desviacion_criterio [⟨"a", "/e", 0, 200, "ua", 1⟩] ⟨60, 5, [], 60000⟩ "a").2.2
    1 (by simp) (by simp)
  exact h

end Algoritmos

namespace Algoritmos

/-! ### Claims C9 and C10: the LRU cache -/

/-- C9: on a capacity-3 cache, the sequence put(a), put(b), put(c), get(a),
put(d) evicts exactly `b`, leaving the keys in least-recently-used-first
order `[c, a, d]`; in general a `put` of a fresh key on a full cache removes
the front node (`head.next`), the key least recently touched by any
`get`/`put`. -/
theorem lru_expulsion :
    (∃ c0 : LRUCache, LRUCache.mkCache 3 = .ok c0 ∧
      ((((((c0.put "a" 1).put "b" 2).put "c" 3).get "a").2).put "d" 4).keys = ["c", "a", "d"] ∧
      "b" ∉ ((((((c0.put "a" 1).put "b" 2).put "c" 3).get "a").2).put "d" 4).keys) ∧
    (∀ (c : LRUCache) (k : String) (v : Int),
      c.entries.find? (fun p => p.1 == k) = none →
      c.capacity ≤ (c.entries.length : Int) →
      (c.put k v).entries = c.entries.tail ++ [(k, v)]) := by
  constructor
  · refine ⟨⟨3, []⟩, rfl, by decide, by decide⟩
  · intro c k v hfind hcap
    simp only [LRUCache.put, hfind]
    rw [if_pos hcap]

/-- Witness for C9's general eviction clause: a full capacity-2 cache
receiving a fresh key drops its least recently used entry `x`. -/
theorem lru_expulsion_testigo :
    (LRUCache.put ⟨2, [("x", 1), ("y", 2)]⟩ "z" 9).entries = [("y", 2), ("z", 9)] := by
  have h := lru_expulsion.2 ⟨2, [("x", 1), ("y", 2)]⟩ "z" 9 (by decide) (by decide)
  rw [h]
  decide

/-- C10: `get` on a key that is not stored returns the sentinel −1 and
leaves the cache entirely unchanged; and `get` of a key stored with value
−1 also returns −1, so at the `get` interface a stored −1 is
indistinguishable from a miss. -/
theorem lru_fallo_invariante (c : LRUCache) (key : String) :
    (key ∉ c.keys → c.get key = (-1, c)) ∧
    (∀ p : String × Int, c.entries.find? (fun q => q.1 == key) = some p → p.2 = -1 →
      (c.get key).1 = -1) := by
  constructor
  · intro hmem
    have hfind : c.entries.find? (fun p => p.1 == key) = none := by
      rw [List.find?_eq_none]
      intro x hx
      simp only [beq_iff_eq]
      intro hcontra
      exact hmem (hcontra ▸ List.mem_map_of_mem Prod.fst hx)
    simp [LRUCache.get, hfind]
  · intro p hfind hval
    simp [LRUCache.get, hfind, hval]

/-- Witness for C10: a miss on `y` returns −1 and the cache is unchanged;
a hit on a key stored with value −1 also returns −1. -/
theorem lru_fallo_invariante_testigo :
    (LRUCache.get ⟨2, [("x", 5)]⟩ "y" = (-1, ⟨2, [("x", 5)]⟩)) ∧
    ((LRUCache.get ⟨2, [("x", -1)]⟩ "x").1 = -1) := by
  constructor
  · exact (lru_fallo_invariante ⟨2, [("x", 5)]⟩ "y").1 (by decide)
  · exact (lru_fallo_invariante ⟨2, [("x", -1)]⟩ "x").2 ("x", -1) (by decide) (by decide)

/-! ### Claim C4: configuration validation -/

/-- C4 counterexample: under the invalid configuration `time_window = 0`
the detector does not fail fast — it aggregates the batch and returns a
report computed from the records (one rate finding for the record's IP,
counter 1; the empty batch gives counter 0), so no error precedes
aggregation. -/
theorem sinValidacion_contraejemplo :
    (detectarActividadSospechosa [⟨"a", "/e", 0, 200, "ua", 1⟩]
        ⟨60, 5, ["/api/login"], 0⟩).ips_sospechosas.map (fun f => f.ip) = ["a"] ∧
    (detectarActividadSospechosa [⟨"a", "/e", 0, 200, "ua", 1⟩]
        ⟨60, 5, ["/api/login"], 0⟩).ips_sospechosas.length = 1 ∧
    (detectarActividadSospechosa [] ⟨60, 5, ["/api/login"], 0⟩).ips_sospechosas = [] := by
  refine ⟨by decide, by decide, rfl⟩

/-- C4 (amended): only the LRU cache constructor fails fast — it raises
exactly for non-positive capacity, before constructing any cache state;
the detector performs no configuration validation (it runs to completion
even with a non-positive `time_window`, see the counterexample). -/
theorem capacidadLRU_validada : ∀ capacity : Int,
    ((∃ e, LRUCache.mkCache capacity = .error e) ↔ capacity ≤ 0) ∧
    ((∃ c, LRUCache.mkCache capacity = .ok c ∧ c.capacity = capacity ∧ c.entries = []) ↔
      0 < capacity) := by
  intro capacity
  by_cases h : capacity ≤ 0
  · constructor
    · simp only [LRUCache.mkCache, if_pos h]
      exact ⟨fun _ => h, fun _ => ⟨_, rfl⟩⟩
    · simp only [LRUCache.mkCache, if_pos h]
      constructor
      · rintro ⟨c, hc, -⟩
        cases hc
      · intro hpos
        omega
  · constructor
    · simp only [LRUCache.mkCache, if_neg h]
      constructor
      · rintro ⟨e, he⟩
        cases he
      · intro hneg
        exact absurd hneg h
    · simp only [LRUCache.mkCache, if_neg h]
      constructor
      · intro _
        omega
      · intro _
        exact ⟨⟨capacity, []⟩, rfl, rfl, rfl⟩

end Algoritmos
